import Mathlib

/-!
Shallow embedding of the Gaming-Arena matchmaking engine
(repository Hashir592/Gaming-Arena).

The embedding covers the components the claims refer to:

* `PlayerELO` and the per-game AVL ranking index
  (`backend-cpp/ds/AVLTree.h`, `backend-cpp/models/Player.h`);
* the hash table used for the player directory, active matches and
  histories (`HashTable.h` together with `LinkedList.h`);
* the FIFO matchmaking queues (`Queue.h`);
* the `RankingService`, `HistoryService` and `Matchmaker` services.

Conventions: C++ `int` is modelled as `Int` (no claim exercises 32-bit
overflow), pointers that may be null become `Option`, and in-place
mutation becomes explicit state passing.  The single floating-point
computation of the engine (the ELO expected score) is kept abstract as a
parameter `E : Int → Int → ℚ`; the claims only constrain it at equal
arguments, where the C++ float computation `1/(1+pow(10,0))` is exact
and yields `1/2`.
-/

/-- The `PlayerELO` struct of `backend-cpp/models/Player.h`: an
(elo, playerId) pair stored in the per-game AVL ranking index. -/
structure PlayerELO where
  elo : Int
  playerId : Int
deriving DecidableEq, Repr

/-- `PlayerELO::operator<`: primary sort by elo, secondary by playerId. -/
def pltLt (a b : PlayerELO) : Bool :=
  if a.elo ≠ b.elo then a.elo < b.elo else a.playerId < b.playerId

/-- A node of `AVLTree<PlayerELO>` (`backend-cpp/ds/AVLTree.h`): data,
left and right children, and the stored height field. -/
inductive AvlTree where
  | nil : AvlTree
  | node (data : PlayerELO) (left : AvlTree) (right : AvlTree) (height : Int) : AvlTree
deriving DecidableEq, Repr

namespace AvlTree

/-- `AVLTree::getHeight`: 0 for a null node, otherwise the stored height. -/
def getHeight : AvlTree → Int
  | nil => 0
  | node _ _ _ h => h

/-- `AVLTree::getBalance`: height of left child minus height of right child. -/
def getBalance : AvlTree → Int
  | nil => 0
  | node _ l r _ => getHeight l - getHeight r

/-- `AVLTree::updateHeight`: recompute the root's stored height from the
children's stored heights. -/
def updateHeight : AvlTree → AvlTree
  | nil => nil
  | node d l r _ => node d l r (1 + max (getHeight l) (getHeight r))

/-- `AVLTree::rotateRight`.  The C++ code is only ever called with a
non-null left child; on the impossible null-left shape the embedding
returns the tree unchanged. -/
def rotateRight : AvlTree → AvlTree
  | node d (node ld ll lr lh) r h =>
      updateHeight (node ld ll (updateHeight (node d lr r h)) lh)
  | t => t

/-- `AVLTree::rotateLeft`; mirror image of `rotateRight`. -/
def rotateLeft : AvlTree → AvlTree
  | node d l (node rd rl rr rh) h =>
      updateHeight (node rd (updateHeight (node d l rl h)) rr rh)
  | t => t

/-- `AVLTree::balance`: update the height, then repair a balance factor of
±2 with the LL / LR / RR / RL rotation cases. -/
def balance : AvlTree → AvlTree
  | nil => nil
  | node d l r _ =>
      let bf := getHeight l - getHeight r
      if bf > 1 then
        if getBalance l < 0 then
          rotateRight (node d (rotateLeft l) r (1 + max (getHeight l) (getHeight r)))
        else
          rotateRight (node d l r (1 + max (getHeight l) (getHeight r)))
      else if bf < -1 then
        if getBalance r > 0 then
          rotateLeft (node d l (rotateRight r) (1 + max (getHeight l) (getHeight r)))
        else
          rotateLeft (node d l r (1 + max (getHeight l) (getHeight r)))
      else
        node d l r (1 + max (getHeight l) (getHeight r))

/-- `AVLTree::insertNode`: BST descent by `PlayerELO::operator<`, no-op on
an equal key (duplicates are rejected, with no rebalancing on that path),
`balance` applied on the way back up. -/
def insertNode : AvlTree → PlayerELO → AvlTree
  | nil, v => node v nil nil 1
  | node d l r h, v =>
      if pltLt v d then balance (node d (insertNode l v) r h)
      else if pltLt d v then balance (node d l (insertNode r v) h)
      else node d l r h

/-- `AVLTree::findMin` applied to a node, returning its data.  The C++
call sites only reach it with a non-null argument; the `nil` result is an
arbitrary default. -/
def findMinData : AvlTree → PlayerELO
  | nil => ⟨0, 0⟩
  | node d nil _ _ => d
  | node _ (node ld ll lr lh) _ _ => findMinData (node ld ll lr lh)

/-- `AVLTree::removeNode`: BST descent; a found node with at most one
child is replaced by that child (returned directly, as in the source,
without a `balance` call on that frame); a node with two children takes
the in-order successor's data and deletes it from the right subtree. -/
def removeNode : AvlTree → PlayerELO → AvlTree
  | nil, _ => nil
  | node d l r h, v =>
      if pltLt v d then balance (node d (removeNode l v) r h)
      else if pltLt d v then balance (node d l (removeNode r v) h)
      else
        if l = nil then r
        else if r = nil then l
        else
          let succ := findMinData r
          balance (node succ l (removeNode r succ) h)

/-- `AVLTree::searchNode`: BST lookup by `operator<`, returning the stored
data (the C++ function returns a pointer to it, null when absent). -/
def searchNode : AvlTree → PlayerELO → Option PlayerELO
  | nil, _ => none
  | node d l r _, v =>
      if pltLt v d then searchNode l v
      else if pltLt d v then searchNode r v
      else some d

/-- The tree's node count.  The C++ class maintains `nodeCount`
incrementally (incremented exactly when `insertNode` allocates, and
decremented exactly when `removeNode` deletes), so it always equals the
number of nodes, which is what this definition computes. -/
def size : AvlTree → Nat
  | nil => 0
  | node _ l r _ => 1 + size l + size r

/-- The entries of the tree in the order of `inOrderTraversal`. -/
def entries : AvlTree → List PlayerELO
  | nil => []
  | node d l r _ => entries l ++ d :: entries r

/-- The per-node section of `AVLTree::findClosestExcludingHelper`: skip
the node if it compares equal to `excluded` (`isExcluded`), otherwise
take it as the new best when `bestDiff < 0 || diff < bestDiff`. -/
def fceConsider (target excl d : PlayerELO) (acc : Option PlayerELO × Int) :
    Option PlayerELO × Int :=
  if !(pltLt d excl) && !(pltLt excl d) then acc
  else
    let diff := if d.elo - target.elo < 0 then -(d.elo - target.elo) else d.elo - target.elo
    if acc.2 < 0 ∨ diff < acc.2 then (some d, diff) else acc

/-- `AVLTree::findClosestExcludingHelper`: consider the node, then search
both subtrees (the `bestDiff < 0 || child` guards in the source only ever
skip a recursion into a null child, which would be a no-op). -/
def fceHelper : AvlTree → PlayerELO → PlayerELO → Option PlayerELO × Int → Option PlayerELO × Int
  | nil, _, _, acc => acc
  | node d l r _, target, excl, acc =>
      let acc1 := fceConsider target excl d acc
      if pltLt target d then
        let acc2 := fceHelper l target excl acc1
        if acc2.2 < 0 ∨ r ≠ nil then fceHelper r target excl acc2 else acc2
      else
        let acc2 := fceHelper r target excl acc1
        if acc2.2 < 0 ∨ l ≠ nil then fceHelper l target excl acc2 else acc2

/-- `AVLTree::findClosestExcluding`: null for the empty tree, otherwise
the helper starting from `(null, -1)`. -/
def findClosestExcluding (t : AvlTree) (target excl : PlayerELO) : Option PlayerELO :=
  match t with
  | nil => none
  | node _ _ _ _ => (fceHelper t target excl (none, -1)).1

end AvlTree

/-- A key-value pair of `HashTable.h` (`KeyValuePair<K, V>`); both engine
instantiations key by `int`. -/
structure KVPair (V : Type) where
  key : Int
  value : V
deriving DecidableEq, Repr

/-- `HashTable<int, V>` of `backend-cpp/ds/HashTable.h`: an array of
separate-chaining buckets, each a `LinkedList<KeyValuePair<int, V>>`
traversed front to back.  `tableSize` is the array length and
`elementCount` is maintained by the source in lockstep with the buckets
(incremented exactly on a fresh append, decremented exactly on a removal,
reset and recounted by `rehash`), so it is derived here. -/
structure HTable (V : Type) where
  buckets : List (List (KVPair V))
deriving DecidableEq, Repr

namespace HTable

variable {V : Type}

/-- The constructor `HashTable(size_t size)`; the engine always uses the
default `DEFAULT_SIZE = 101`. -/
def empty (V : Type) (size : Nat) : HTable V := ⟨List.replicate size []⟩

/-- `tableSize`. -/
def tableSize (t : HTable V) : Nat := t.buckets.length

/-- `elementCount`, derived (see the structure's documentation). -/
def count (t : HTable V) : Nat := (t.buckets.map List.length).sum

/-- `HashFunc<int>`: absolute value of the key modulo the table size. -/
def hashIdx (t : HTable V) (k : Int) : Nat := k.natAbs % t.tableSize

/-- Front-to-back scan of one bucket for the first pair with the key
(`LinkedList` iteration plus `KeyValuePair::operator==`). -/
def bucketFind : List (KVPair V) → Int → Option V
  | [], _ => none
  | p :: ps, k => if p.key = k then some p.value else bucketFind ps k

/-- Overwrite the value of the first pair with the key in a bucket
(`*existing = value` through the pointer `get` returned). -/
def bucketOverwrite : List (KVPair V) → Int → V → List (KVPair V)
  | [], _, _ => []
  | p :: ps, k, v => if p.key = k then ⟨p.key, v⟩ :: ps else p :: bucketOverwrite ps k v

/-- Remove the first pair with the key from a bucket
(`LinkedList::remove` with `KeyValuePair::operator==`); `none` if the
key is absent. -/
def bucketRemove : List (KVPair V) → Int → Option (List (KVPair V))
  | [], _ => none
  | p :: ps, k =>
      if p.key = k then some ps
      else match bucketRemove ps k with
        | none => none
        | some ps2 => some (p :: ps2)

/-- Replace bucket `i`. -/
def setBucket (t : HTable V) (i : Nat) (b : List (KVPair V)) : HTable V :=
  ⟨t.buckets.set i b⟩

/-- `HashTable::get`: scan the key's bucket. -/
def get (t : HTable V) (k : Int) : Option V :=
  bucketFind (t.buckets.getD (hashIdx t k) []) k

/-- All pairs in table order: buckets front to back, chains front to back
(the iteration order of `rehash` and `getAllKeys`). -/
def pairs (t : HTable V) : List (KVPair V) := t.buckets.flatten

/-- One reinsertion step of `rehash`: the recursive `insert` call, whose
existing-key check finds nothing fresh to overwrite unless the source
table held duplicate keys, and whose load-factor check cannot fire while
refilling a freshly doubled table (reinserting `k` pairs into a table of
size `2s+1`, where the triggering insert had `4(k+1) > 3s` for the first
time, keeps the load factor below the threshold), so it reduces to
overwrite-or-append. -/
def insertStep (t : HTable V) (k : Int) (v : V) : HTable V :=
  let i := hashIdx t k
  let b := t.buckets.getD i []
  match bucketFind b k with
  | some _ => setBucket t i (bucketOverwrite b k v)
  | none => setBucket t i (b ++ [⟨k, v⟩])

/-- `HashTable::rehash`: double the size (next odd), reinsert every pair
in table order. -/
def rehash (t : HTable V) : HTable V :=
  (pairs t).foldl (fun acc p => insertStep acc p.key p.value) (empty V (2 * t.tableSize + 1))

/-- `HashTable::insert`: overwrite in place when the key exists;
otherwise rehash if `(elementCount + 1) / tableSize > 0.75` (an exact
float comparison at the engine's table sizes, rendered as
`4 * (count + 1) > 3 * tableSize`), then append to the key's bucket. -/
def insert (t : HTable V) (k : Int) (v : V) : HTable V :=
  let i := hashIdx t k
  let b := t.buckets.getD i []
  match bucketFind b k with
  | some _ => setBucket t i (bucketOverwrite b k v)
  | none =>
      let t1 := if 4 * (count t + 1) > 3 * tableSize t then rehash t else t
      let i1 := hashIdx t1 k
      setBucket t1 i1 (t1.buckets.getD i1 [] ++ [⟨k, v⟩])

/-- `HashTable::update`: overwrite the existing value in place, `false`
if the key is absent. -/
def update (t : HTable V) (k : Int) (v : V) : Bool × HTable V :=
  let i := hashIdx t k
  let b := t.buckets.getD i []
  match bucketFind b k with
  | some _ => (true, setBucket t i (bucketOverwrite b k v))
  | none => (false, t)

/-- `HashTable::remove`. -/
def remove (t : HTable V) (k : Int) : Bool × HTable V :=
  let i := hashIdx t k
  match bucketRemove (t.buckets.getD i []) k with
  | some b2 => (true, setBucket t i b2)
  | none => (false, t)

/-- Well-formedness: every stored pair sits in the bucket its key hashes
to.  Every table the engine builds satisfies this. -/
def wf (t : HTable V) : Prop :=
  ∀ i, ∀ h : i < t.buckets.length, ∀ p ∈ t.buckets.get ⟨i, h⟩, hashIdx t p.key = i

end HTable

/-- The `Player` struct of `backend-cpp/models/Player.h`.
`recentOpponents` models the first `recentOpponentCount` slots of the
fixed array of `MAX_RECENT_OPPONENTS = 3`, most recent first (the unused
slots hold `-1` and are never scanned). -/
structure Player where
  id : Int
  username : String
  elo : Int
  wins : Int
  losses : Int
  preferredGame : String
  isInQueue : Bool
  isInMatch : Bool
  isBot : Bool
  recentOpponents : List Int
deriving DecidableEq, Repr

/-- `Player::addRecentOpponent`: shift the window right, put the new id
in slot 0, cap the count at 3. -/
def Player.addRecentOpponent (p : Player) (opponentId : Int) : Player :=
  { p with recentOpponents := (opponentId :: p.recentOpponents).take 3 }

/-- `Player::wasRecentOpponent`: linear scan of the occupied slots. -/
def Player.wasRecentOpponent (p : Player) (opponentId : Int) : Bool :=
  p.recentOpponents.contains opponentId

/-- The `Match` struct of `backend-cpp/models/Match.h`.  The source's
formatted wall-clock `timestamp` string is modelled by the integer time
at creation; nothing in the engine reads it back. -/
structure Match where
  matchId : Int
  player1Id : Int
  player2Id : Int
  gameName : String
  winnerId : Int
  timestamp : Int
  isCompleted : Bool
deriving DecidableEq, Repr

/-- `Match::complete`: set the winner and mark completed. -/
def Match.complete (m : Match) (winner : Int) : Match :=
  { m with winnerId := winner, isCompleted := true }

/-- The `QueueEntry` struct of `backend-cpp/models/Player.h`;
`operator==` compares only `playerId`. -/
structure QueueEntry where
  playerId : Int
  joinTime : Int
deriving DecidableEq, Repr

/-- `Queue<QueueEntry>::remove`: drop the first entry whose `playerId`
matches (`QueueEntry::operator==`); `none` when absent. -/
def queueRemove : List QueueEntry → Int → Option (List QueueEntry)
  | [], _ => none
  | e :: es, pid =>
      if e.playerId = pid then some es
      else match queueRemove es pid with
        | none => none
        | some es2 => some (e :: es2)

/-- The combined in-memory engine state: the `Matchmaker` (queues, active
matches, bot rosters, next match id), the `RankingService` (one AVL
ranking tree per game), the `HistoryService` (per-player chronological
match lists) and the shared player directory.  `now` is the external
wall clock read by `getCurrentTime`; no engine behaviour depends on its
value. -/
structure Engine where
  playerStorage : HTable Player
  pingpongQueue : List QueueEntry
  snakeQueue : List QueueEntry
  tankQueue : List QueueEntry
  activeMatches : HTable Match
  nextMatchId : Int
  pingpongBots : List Int
  snakeBots : List Int
  tankBots : List Int
  pingpongRankings : AvlTree
  snakeRankings : AvlTree
  tankRankings : AvlTree
  histories : HTable (List Match)
  now : Int
deriving DecidableEq, Repr

namespace Engine

/-- `Matchmaker::getQueueForGame`: string dispatch, null for an unknown
game name. -/
def getQueueOpt (st : Engine) (g : String) : Option (List QueueEntry) :=
  if g = "pingpong" then some st.pingpongQueue
  else if g = "snake" then some st.snakeQueue
  else if g = "tank" then some st.tankQueue
  else none

/-- Write back through the reference `getQueueForGame` returned. -/
def setQueue (st : Engine) (g : String) (q : List QueueEntry) : Engine :=
  if g = "pingpong" then { st with pingpongQueue := q }
  else if g = "snake" then { st with snakeQueue := q }
  else if g = "tank" then { st with tankQueue := q }
  else st

/-- `RankingService::getTreeForGame`. -/
def getTreeOpt (st : Engine) (g : String) : Option AvlTree :=
  if g = "pingpong" then some st.pingpongRankings
  else if g = "snake" then some st.snakeRankings
  else if g = "tank" then some st.tankRankings
  else none

/-- Write back through the reference `getTreeForGame` returned. -/
def setTree (st : Engine) (g : String) (t : AvlTree) : Engine :=
  if g = "pingpong" then { st with pingpongRankings := t }
  else if g = "snake" then { st with snakeRankings := t }
  else if g = "tank" then { st with tankRankings := t }
  else st

/-- `Matchmaker::getBotsForGame`: null (with count 0) for an unknown
game. -/
def getBotsOpt (st : Engine) (g : String) : Option (List Int) :=
  if g = "pingpong" then some st.pingpongBots
  else if g = "snake" then some st.snakeBots
  else if g = "tank" then some st.tankBots
  else none

/-- `Matchmaker::registerBot`: append to the game's roster while it holds
fewer than `MAX_BOTS_PER_GAME = 20` ids. -/
def registerBot (st : Engine) (botId : Int) (g : String) : Engine :=
  if g = "pingpong" then
    if st.pingpongBots.length < 20 then { st with pingpongBots := st.pingpongBots ++ [botId] } else st
  else if g = "snake" then
    if st.snakeBots.length < 20 then { st with snakeBots := st.snakeBots ++ [botId] } else st
  else if g = "tank" then
    if st.tankBots.length < 20 then { st with tankBots := st.tankBots ++ [botId] } else st
  else st

/-- `RankingService::addPlayerToRanking`: read the player's current elo
from the directory and insert `(elo, playerId)` into the game's tree. -/
def addPlayerToRanking (st : Engine) (pid : Int) (g : String) : Engine :=
  match HTable.get st.playerStorage pid with
  | none => st
  | some p =>
      match getTreeOpt st g with
      | none => st
      | some t => setTree st g (AvlTree.insertNode t ⟨p.elo, pid⟩)

/-- `RankingService::removePlayerFromRanking`. -/
def removePlayerFromRanking (st : Engine) (pid elo : Int) (g : String) : Engine :=
  match getTreeOpt st g with
  | none => st
  | some t => setTree st g (AvlTree.removeNode t ⟨elo, pid⟩)

/-- `RankingService::findClosestOpponent`: look up the player's own
rating, require an index of size at least 2, and query
`findClosestExcluding` with the player's own `(elo, id)` entry as both
target and exclusion; `-1` signals no opponent. -/
def findClosestOpponentR (st : Engine) (pid : Int) (g : String) : Int :=
  match HTable.get st.playerStorage pid with
  | none => -1
  | some p =>
      match getTreeOpt st g with
      | none => -1
      | some t =>
          if t.size < 2 then -1
          else
            match AvlTree.findClosestExcluding t ⟨p.elo, pid⟩ ⟨p.elo, pid⟩ with
            | none => -1
            | some c => c.playerId

end Engine

/-- Truncation toward zero, the semantics of `static_cast<int>` on an
in-range value. -/
def ratTrunc (q : ℚ) : Int := if 0 ≤ q then ⌊q⌋ else ⌈q⌉

/-- `RankingService::K_FACTOR`. -/
def kFactor : ℚ := 32

/-- `RankingService::calculateNewElo`:
`currentElo + static_cast<int>(K_FACTOR * (actualScore - expectedScore))`.
The float subtraction and the multiplication by 32 are exact whenever the
expected score is `1/2` (the only value the claims pin down), so they are
rendered as exact rational arithmetic. -/
def calculateNewElo (currentElo : Int) (expectedScore actualScore : ℚ) : Int :=
  currentElo + ratTrunc (kFactor * (actualScore - expectedScore))

namespace Engine

/-- `RankingService::updateRankings`.  `E s o` stands for the float
`calculateExpectedScore(s, o) = 1/(1+pow(10,(o-s)/400))`, which is kept
abstract (theorems constrain it only at equal arguments, where the float
computation is exact).  The source mutates the two directory records in
place through the pointers `get` returned and then issues redundant
self-copies via `update`; with distinct `winnerId`/`loserId` (the only
case the engine produces and the only one the theorems use) reading both
records first and writing both back in source order is equivalent. -/
def updateRankings (E : Int → Int → ℚ) (st : Engine) (winnerId loserId : Int)
    (g : String) : Engine :=
  match HTable.get st.playerStorage winnerId, HTable.get st.playerStorage loserId with
  | some winner, some loser =>
      match getTreeOpt st g with
      | none => st
      | some tree =>
          let t1 := AvlTree.removeNode tree ⟨winner.elo, winnerId⟩
          let t2 := AvlTree.removeNode t1 ⟨loser.elo, loserId⟩
          let winnerNewElo := calculateNewElo winner.elo (E winner.elo loser.elo) 1
          let loserNewElo := calculateNewElo loser.elo (E loser.elo winner.elo) 0
          let w2 := { winner with elo := winnerNewElo, wins := winner.wins + 1 }
          let l2 := { loser with elo := loserNewElo, losses := loser.losses + 1 }
          let t3 := AvlTree.insertNode t2 ⟨winnerNewElo, winnerId⟩
          let t4 := AvlTree.insertNode t3 ⟨loserNewElo, loserId⟩
          let st1 := setTree st g t4
          let st2 := { st1 with playerStorage := (HTable.update st1.playerStorage winnerId w2).2 }
          { st2 with playerStorage := (HTable.update st2.playerStorage loserId l2).2 }
  | _, _ => st

/-- `HistoryService::recordMatch`: append the completed match to both
participants' chronological lists, creating a list on first use (the
source inserts an empty list and then appends through the returned
pointer; inserting the appended list directly yields the same table). -/
def recordMatch (st : Engine) (m : Match) : Engine :=
  let h1 := (HTable.get st.histories m.player1Id).getD []
  let st1 := { st with histories := HTable.insert st.histories m.player1Id (h1 ++ [m]) }
  let h2 := (HTable.get st1.histories m.player2Id).getD []
  { st1 with histories := HTable.insert st1.histories m.player2Id (h2 ++ [m]) }

/-- `Matchmaker::joinQueue`: reject a missing profile or a player already
queued or matched; enqueue, set `isInQueue`, record the preferred game,
and add the player to the game's ranking tree. -/
def joinQueue (st : Engine) (pid : Int) (g : String) : Bool × Engine :=
  match HTable.get st.playerStorage pid with
  | none => (false, st)
  | some p =>
      if p.isInQueue || p.isInMatch then (false, st)
      else
        match getQueueOpt st g with
        | none => (false, st)
        | some q =>
            let st1 := setQueue st g (q ++ [⟨pid, st.now⟩])
            let p1 := { p with isInQueue := true, preferredGame := g }
            let st2 := { st1 with playerStorage := (HTable.update st1.playerStorage pid p1).2 }
            (true, addPlayerToRanking st2 pid g)

/-- `Matchmaker::leaveQueue`: reject a missing or unqueued profile; on a
successful queue removal clear `isInQueue` and remove the ranking
entry. -/
def leaveQueue (st : Engine) (pid : Int) (g : String) : Bool × Engine :=
  match HTable.get st.playerStorage pid with
  | none => (false, st)
  | some p =>
      if !p.isInQueue then (false, st)
      else
        match getQueueOpt st g with
        | none => (false, st)
        | some q =>
            match queueRemove q pid with
            | none => (false, st)
            | some q2 =>
                let st1 := setQueue st g q2
                let p1 := { p with isInQueue := false }
                let st2 := { st1 with playerStorage := (HTable.update st1.playerStorage pid p1).2 }
                (true, removePlayerFromRanking st2 pid p.elo g)

/-- The loop body of `Matchmaker::findClosestBotOpponent`, folding the
state `(bestBotId, bestEloDiff, fallbackBotId, fallbackEloDiff)` over the
roster: skip ids without a profile or in a match, track the absolute
closest as fallback, skip recent opponents, track the closest eligible. -/
def fcboLoop (st : Engine) (human : Player) (targetElo : Int) :
    List Int → Int × Int × Int × Int → Int × Int × Int × Int
  | [], acc => acc
  | botId :: rest, (bestBotId, bestEloDiff, fallbackBotId, fallbackEloDiff) =>
      match HTable.get st.playerStorage botId with
      | none => fcboLoop st human targetElo rest (bestBotId, bestEloDiff, fallbackBotId, fallbackEloDiff)
      | some bot =>
          if bot.isInMatch then
            fcboLoop st human targetElo rest (bestBotId, bestEloDiff, fallbackBotId, fallbackEloDiff)
          else
            let eloDiff := if bot.elo - targetElo < 0 then -(bot.elo - targetElo) else bot.elo - targetElo
            let fb := if eloDiff < fallbackEloDiff then (botId, eloDiff) else (fallbackBotId, fallbackEloDiff)
            if human.wasRecentOpponent botId then
              fcboLoop st human targetElo rest (bestBotId, bestEloDiff, fb.1, fb.2)
            else
              let bb := if eloDiff < bestEloDiff then (botId, eloDiff) else (bestBotId, bestEloDiff)
              fcboLoop st human targetElo rest (bb.1, bb.2, fb.1, fb.2)

/-- `Matchmaker::findClosestBotOpponent`: fold the loop from the sentinel
state `(-1, 999999, -1, 999999)`; if no eligible (non-recent) bot was
found, fall back to the absolute closest. -/
def findClosestBotOpponent (st : Engine) (humanPlayerId targetElo : Int) (g : String) : Int :=
  match getBotsOpt st g with
  | none => -1
  | some bots =>
      if bots.length = 0 then -1
      else
        match HTable.get st.playerStorage humanPlayerId with
        | none => -1
        | some human =>
            let r := fcboLoop st human targetElo bots (-1, 999999, -1, 999999)
            if r.1 = -1 then r.2.2.1 else r.1

/-- `Matchmaker::findClosestHumanOpponent`: the ranking query, accepted
only when the candidate exists, is human and is flagged `isInQueue`. -/
def findClosestHumanOpponent (st : Engine) (pid : Int) (g : String) : Int :=
  let opponentId := findClosestOpponentR st pid g
  if opponentId = -1 then -1
  else
    match HTable.get st.playerStorage opponentId with
    | none => -1
    | some opponent =>
        if !opponent.isBot && opponent.isInQueue then opponentId else -1

/-- `Matchmaker::createMatchBetween`: push the opponent onto each human
participant's recent-opponent window, create and register the match,
clear `isInQueue` and set `isInMatch` on both.  As in `updateRankings`,
both records are read before either is written; for distinct ids (all
the engine produces) this matches the source's in-place mutation. -/
def createMatchBetween (st : Engine) (p1Id p2Id : Int) (g : String) : Int × Engine :=
  match HTable.get st.playerStorage p1Id, HTable.get st.playerStorage p2Id with
  | some player1, some player2 =>
      let p1a := if !player1.isBot then player1.addRecentOpponent p2Id else player1
      let p2a := if !player2.isBot then player2.addRecentOpponent p1Id else player2
      let m : Match := ⟨st.nextMatchId, p1Id, p2Id, g, 0, st.now, false⟩
      let st1 := { st with activeMatches := HTable.insert st.activeMatches m.matchId m,
                           nextMatchId := st.nextMatchId + 1 }
      let p1b := { p1a with isInQueue := false, isInMatch := true }
      let st2 := { st1 with playerStorage := (HTable.update st1.playerStorage p1Id p1b).2 }
      let p2b := { p2a with isInQueue := false, isInMatch := true }
      let st3 := { st2 with playerStorage := (HTable.update st2.playerStorage p2Id p2b).2 }
      (m.matchId, st3)
  | _, _ => (-1, st)

/-- `Matchmaker::matchHumanWithBot`: dequeue the sole waiting player,
drop the entry if the profile is missing, re-enqueue a bot, otherwise
take the player out of the ranking tree and search for a bot; on failure
restore the ranking entry and re-enqueue, on success create the match. -/
def matchHumanWithBot (st : Engine) (g : String) : Int × Engine :=
  match getQueueOpt st g with
  | none => (-1, st)
  | some [] => (-1, st)
  | some (entry :: rest) =>
      let st0 := setQueue st g rest
      match HTable.get st0.playerStorage entry.playerId with
      | none => (-1, st0)
      | some human =>
          if human.isBot then (-1, setQueue st0 g (rest ++ [entry]))
          else
            let st1 := removePlayerFromRanking st0 entry.playerId human.elo g
            let botId := findClosestBotOpponent st1 entry.playerId human.elo g
            if botId = -1 then
              let st2 := addPlayerToRanking st1 entry.playerId g
              (-1, setQueue st2 g (rest ++ [entry]))
            else createMatchBetween st1 entry.playerId botId g

/-- `Matchmaker::tryCreateMatch`: the core algorithm.  Queue size 1 goes
to the bot path; otherwise dequeue the front player, drop the entry if
the profile is missing, re-enqueue a bot, else temporarily remove the
player from the ranking tree and search for the closest human; fall back
to a bot (re-enqueueing on total failure), or remove the found opponent
from queue and tree and create the match. -/
def tryCreateMatch (st : Engine) (g : String) : Int × Engine :=
  match getQueueOpt st g with
  | none => (-1, st)
  | some [] => (-1, st)
  | some (entry1 :: rest) =>
      if rest.length = 0 then matchHumanWithBot st g
      else
        let st0 := setQueue st g rest
        match HTable.get st0.playerStorage entry1.playerId with
        | none => (-1, st0)
        | some player1 =>
            if player1.isBot then (-1, setQueue st0 g (rest ++ [entry1]))
            else
              let st1 := removePlayerFromRanking st0 entry1.playerId player1.elo g
              let opponentId := findClosestHumanOpponent st1 entry1.playerId g
              if opponentId = -1 then
                let st2 := addPlayerToRanking st1 entry1.playerId g
                let botOpponentId := findClosestBotOpponent st2 entry1.playerId player1.elo g
                if botOpponentId = -1 then (-1, setQueue st2 g (rest ++ [entry1]))
                else createMatchBetween st2 entry1.playerId botOpponentId g
              else
                match HTable.get st1.playerStorage opponentId with
                | none =>
                    let st2 := addPlayerToRanking st1 entry1.playerId g
                    (-1, setQueue st2 g (rest ++ [entry1]))
                | some player2 =>
                    let st2 :=
                      match queueRemove ((getQueueOpt st1 g).getD []) opponentId with
                      | none => st1
                      | some q2 => setQueue st1 g q2
                    let st3 := removePlayerFromRanking st2 opponentId player2.elo g
                    createMatchBetween st3 entry1.playerId opponentId g

/-- `Matchmaker::submitMatchResult`: fail on a missing or completed match
or a winner who is not a participant; otherwise complete the match,
update rankings, record history, clear `isInMatch` on both players and
re-add both ranking entries. -/
def submitMatchResult (E : Int → Int → ℚ) (st : Engine) (matchId winnerId : Int) :
    Bool × Engine :=
  match HTable.get st.activeMatches matchId with
  | none => (false, st)
  | some m =>
      if m.isCompleted then (false, st)
      else if winnerId ≠ m.player1Id ∧ winnerId ≠ m.player2Id then (false, st)
      else
        let loserId := if winnerId = m.player1Id then m.player2Id else m.player1Id
        let m2 := m.complete winnerId
        let st1 := { st with activeMatches := (HTable.update st.activeMatches matchId m2).2 }
        let st2 := updateRankings E st1 winnerId loserId m2.gameName
        let st3 := recordMatch st2 m2
        let st4 :=
          match HTable.get st3.playerStorage winnerId with
          | none => st3
          | some w =>
              { st3 with playerStorage :=
                  (HTable.update st3.playerStorage winnerId { w with isInMatch := false }).2 }
        let st5 :=
          match HTable.get st4.playerStorage loserId with
          | none => st4
          | some l =>
              { st4 with playerStorage :=
                  (HTable.update st4.playerStorage loserId { l with isInMatch := false }).2 }
        let st6 := addPlayerToRanking st5 winnerId m2.gameName
        let st7 := addPlayerToRanking st6 loserId m2.gameName
        (true, st7)

end Engine

/-- The `Player(playerId, name, startingElo, bot=false)` constructor of
`Player.h`, as invoked by the player-registration endpoint. -/
def mkHuman (pid : Int) (name : String) (elo : Int) : Player :=
  ⟨pid, name, elo, 0, 0, "", false, false, false, []⟩

/-- The `Player(botId, botName, elo, true)` constructor, as invoked by
the bot-seeding loop at engine startup. -/
def mkBot (pid : Int) (name : String) (elo : Int) : Player :=
  ⟨pid, name, elo, 0, 0, "", false, false, true, []⟩

/-- A player directory as built by repeated registration:
`playerStorage.insert(player.id, player)` into a default-sized table. -/
def mkDirectory (ps : List Player) : HTable Player :=
  ps.foldl (fun t p => HTable.insert t p.id p) (HTable.empty Player 101)

/-- The engine at startup: empty queues, empty ranking trees, no bots, no
matches (`nextMatchId = 1`), default-sized match and history tables, and
whatever directory the registration API has populated. -/
def Engine.init (storage : HTable Player) (now : Int) : Engine :=
  ⟨storage, [], [], [], HTable.empty Match 101, 1, [], [], [],
   AvlTree.nil, AvlTree.nil, AvlTree.nil, HTable.empty (List Match) 101, now⟩

namespace Engine

@[simp] theorem setQueue_playerStorage (st : Engine) (g : String) (q : List QueueEntry) :
    (setQueue st g q).playerStorage = st.playerStorage := by
  unfold setQueue; split_ifs <;> rfl

@[simp] theorem setQueue_activeMatches (st : Engine) (g : String) (q : List QueueEntry) :
    (setQueue st g q).activeMatches = st.activeMatches := by
  unfold setQueue; split_ifs <;> rfl

@[simp] theorem setQueue_histories (st : Engine) (g : String) (q : List QueueEntry) :
    (setQueue st g q).histories = st.histories := by
  unfold setQueue; split_ifs <;> rfl

@[simp] theorem setQueue_pingpongRankings (st : Engine) (g : String) (q : List QueueEntry) :
    (setQueue st g q).pingpongRankings = st.pingpongRankings := by
  unfold setQueue; split_ifs <;> rfl

@[simp] theorem setQueue_snakeRankings (st : Engine) (g : String) (q : List QueueEntry) :
    (setQueue st g q).snakeRankings = st.snakeRankings := by
  unfold setQueue; split_ifs <;> rfl

@[simp] theorem setQueue_tankRankings (st : Engine) (g : String) (q : List QueueEntry) :
    (setQueue st g q).tankRankings = st.tankRankings := by
  unfold setQueue; split_ifs <;> rfl

@[simp] theorem setQueue_pingpongBots (st : Engine) (g : String) (q : List QueueEntry) :
    (setQueue st g q).pingpongBots = st.pingpongBots := by
  unfold setQueue; split_ifs <;> rfl

@[simp] theorem setQueue_snakeBots (st : Engine) (g : String) (q : List QueueEntry) :
    (setQueue st g q).snakeBots = st.snakeBots := by
  unfold setQueue; split_ifs <;> rfl

@[simp] theorem setQueue_tankBots (st : Engine) (g : String) (q : List QueueEntry) :
    (setQueue st g q).tankBots = st.tankBots := by
  unfold setQueue; split_ifs <;> rfl

/-- `getQueueForGame` answers only for the three game names. -/
theorem getQueueOpt_some_cases (st : Engine) (g : String) (q : List QueueEntry)
    (h : getQueueOpt st g = some q) :
    g = "pingpong" ∨ g = "snake" ∨ g = "tank" := by
  unfold getQueueOpt at h
  split_ifs at h with h1 h2 h3
  · exact Or.inl h1
  · exact Or.inr (Or.inl h2)
  · exact Or.inr (Or.inr h3)

theorem getQueueOpt_setQueue_self (st : Engine) (g : String) (q q0 : List QueueEntry)
    (h : getQueueOpt st g = some q0) :
    getQueueOpt (setQueue st g q) g = some q := by
  rcases getQueueOpt_some_cases st g q0 h with hg | hg | hg <;>
    subst hg <;> simp [getQueueOpt, setQueue]

end Engine

/-- The expected-score function at the single point the claims constrain
it: the float computation `1/(1+pow(10,(a-b)/400))` at `a = b` evaluates
`pow(10, 0) = 1` and `1/(1+1) = 1/2` exactly.  Used to instantiate the
abstract parameter `E` in witnesses. -/
def eHalf : Int → Int → ℚ := fun _ _ => 1 / 2

/-- C3: `submitMatchResult(matchId, winnerId)` returns failure exactly
when the match is absent, already completed, or `winnerId` is not one of
the two participants; and every failing call leaves the entire engine
state (match records, ratings, counters, histories, ranking indexes,
status flags) unchanged — hence a completed match's `winnerId` never
changes and resubmission updates nothing. -/
theorem claim_C3_submitMatchResult_failure (E : Int → Int → ℚ) (st : Engine)
    (matchId winnerId : Int) :
    ((Engine.submitMatchResult E st matchId winnerId).1 = false ↔
      (HTable.get st.activeMatches matchId = none ∨
        ∃ m, HTable.get st.activeMatches matchId = some m ∧
          (m.isCompleted = true ∨ (winnerId ≠ m.player1Id ∧ winnerId ≠ m.player2Id)))) ∧
    ((Engine.submitMatchResult E st matchId winnerId).1 = false →
      (Engine.submitMatchResult E st matchId winnerId).2 = st) := by
  rcases h : HTable.get st.activeMatches matchId with _ | m
  · simp [Engine.submitMatchResult, h]
  · by_cases hc : m.isCompleted
    · simp [Engine.submitMatchResult, h, hc]
    · by_cases hw : winnerId ≠ m.player1Id ∧ winnerId ≠ m.player2Id
      · simp [Engine.submitMatchResult, h, hc, hw]
      · simp only [Engine.submitMatchResult, h, hc, hw]
        constructor
        · constructor
          · intro hfalse
            simp at hfalse
          · rintro (hnone | ⟨m2, hm2, hbad⟩)
            · exact absurd hnone (by simp)
            · rw [show m2 = m from (Option.some.inj hm2).symm] at hbad
              rcases hbad with hb1 | hb2
              · exact absurd hb1 hc
              · exact absurd hb2 hw
        · intro hfalse
          simp at hfalse

/-- Witness for C3 at a concrete input: submitting a result for a match
id that does not exist fails and leaves the state untouched. -/
theorem claim_C3_witness :
    (Engine.submitMatchResult eHalf (Engine.init (mkDirectory []) 0) 1 5).1 = false ∧
    (Engine.submitMatchResult eHalf (Engine.init (mkDirectory []) 0) 1 5).2 =
      Engine.init (mkDirectory []) 0 :=
  ⟨by decide,
   (claim_C3_submitMatchResult_failure eHalf (Engine.init (mkDirectory []) 0) 1 5).2 (by decide)⟩

/-- C10: when `tryCreateMatch` dequeues a queue entry whose playerId has
no profile in the player directory, it returns failure, the entry is
discarded (the game's queue is exactly the old tail, with no re-enqueue),
and the player directory, active matches, histories and all three ranking
indexes are unchanged. -/
theorem claim_C10_orphan_entry_discarded (st : Engine) (g : String) (e : QueueEntry)
    (rest : List QueueEntry)
    (hq : Engine.getQueueOpt st g = some (e :: rest))
    (hp : HTable.get st.playerStorage e.playerId = none) :
    Engine.tryCreateMatch st g = (-1, Engine.setQueue st g rest) ∧
    Engine.getQueueOpt (Engine.setQueue st g rest) g = some rest ∧
    (Engine.setQueue st g rest).playerStorage = st.playerStorage ∧
    (Engine.setQueue st g rest).activeMatches = st.activeMatches ∧
    (Engine.setQueue st g rest).histories = st.histories ∧
    (Engine.setQueue st g rest).pingpongRankings = st.pingpongRankings ∧
    (Engine.setQueue st g rest).snakeRankings = st.snakeRankings ∧
    (Engine.setQueue st g rest).tankRankings = st.tankRankings := by
  refine ⟨?_, Engine.getQueueOpt_setQueue_self st g rest _ hq, by simp, by simp, by simp,
    by simp, by simp, by simp⟩
  rcases Nat.eq_zero_or_pos rest.length with hlen | hlen
  · rw [List.length_eq_zero] at hlen
    subst hlen
    simp only [Engine.tryCreateMatch, hq, List.length_nil, if_pos rfl]
    simp only [Engine.matchHumanWithBot, hq, Engine.setQueue_playerStorage, hp]
    simp
  · simp only [Engine.tryCreateMatch, hq]
    rw [if_neg (by omega)]
    simp only [Engine.setQueue_playerStorage, hp]

/-- Witness for C10 at a concrete input: a queue entry for id 7, which
has no profile. -/
theorem claim_C10_witness :
    Engine.tryCreateMatch
        { Engine.init (mkDirectory []) 0 with pingpongQueue := [⟨7, 0⟩] } "pingpong" =
      (-1, Engine.setQueue
        { Engine.init (mkDirectory []) 0 with pingpongQueue := [⟨7, 0⟩] } "pingpong" []) :=
  (claim_C10_orphan_entry_discarded
    { Engine.init (mkDirectory []) 0 with pingpongQueue := [⟨7, 0⟩] } "pingpong" ⟨7, 0⟩ []
    (by decide) (by decide)).1

/-- `isExcluded` in `findClosestExcludingHelper` — neither strictly below
nor strictly above — holds exactly on the equal `PlayerELO` pair. -/
theorem pltLt_both_not_iff (a b : PlayerELO) :
    (!(pltLt a b) && !(pltLt b a)) = true ↔ a = b := by
  cases a with | mk ae ai =>
  cases b with | mk be bi =>
  by_cases h : ae = be
  · subst h
    rw [show pltLt ⟨ae, ai⟩ ⟨ae, bi⟩ = decide (ai < bi) from by simp [pltLt]]
    rw [show pltLt ⟨ae, bi⟩ ⟨ae, ai⟩ = decide (bi < ai) from by simp [pltLt]]
    simp [PlayerELO.mk.injEq]
    omega
  · have h2 : be ≠ ae := fun hh => h hh.symm
    rw [show pltLt ⟨ae, ai⟩ ⟨be, bi⟩ = decide (ae < be) from by simp [pltLt, h]]
    rw [show pltLt ⟨be, bi⟩ ⟨ae, ai⟩ = decide (be < ae) from by simp [pltLt, h2]]
    simp [PlayerELO.mk.injEq, h]
    omega

/-- The branchless absolute value used by the helpers. -/
theorem if_neg_abs (a : Int) : (if a < 0 then -a else a) = |a| := by
  rcases lt_or_ge a 0 with h | h
  · rw [if_pos h, abs_of_neg h]
  · rw [if_neg (not_lt.2 h), abs_of_nonneg h]

namespace AvlTree

/-- Invariant carried by the `(best, bestDiff)` accumulator of
`findClosestExcludingHelper` over the multiset `seen` of nodes already
considered: an empty best means everything seen was excluded, and an
occupied best holds a seen, non-excluded entry of minimal absolute elo
difference from the target. -/
def goodAcc (target excl : PlayerELO) (seen : List PlayerELO) :
    Option PlayerELO × Int → Prop
  | (none, dd) => dd < 0 ∧ ∀ x ∈ seen, x = excl
  | (some b, dd) => dd = |b.elo - target.elo| ∧ b ∈ seen ∧ b ≠ excl ∧
      ∀ x ∈ seen, x ≠ excl → dd ≤ |x.elo - target.elo|

theorem goodAcc_mono (target excl : PlayerELO) (s1 s2 : List PlayerELO)
    (acc : Option PlayerELO × Int) (hsub : ∀ x, x ∈ s1 ↔ x ∈ s2) :
    goodAcc target excl s1 acc → goodAcc target excl s2 acc := by
  obtain ⟨ob, dd⟩ := acc
  cases ob with
  | none =>
      rintro ⟨h1, h2⟩
      exact ⟨h1, fun x hx => h2 x ((hsub x).2 hx)⟩
  | some b =>
      rintro ⟨h1, h2, h3, h4⟩
      exact ⟨h1, (hsub b).1 h2, h3, fun x hx hne => h4 x ((hsub x).2 hx) hne⟩

theorem goodAcc_consider (target excl d : PlayerELO) (seen : List PlayerELO)
    (acc : Option PlayerELO × Int) (h : goodAcc target excl seen acc) :
    goodAcc target excl (d :: seen) (fceConsider target excl d acc) := by
  unfold fceConsider
  by_cases hex : (!(pltLt d excl) && !(pltLt excl d)) = true
  · rw [if_pos hex]
    have hd : d = excl := (pltLt_both_not_iff d excl).1 hex
    obtain ⟨ob, dd⟩ := acc
    cases ob with
    | none =>
        obtain ⟨h1, h2⟩ := h
        exact ⟨h1, by
          intro x hx
          rcases List.mem_cons.1 hx with hx | hx
          · rw [hx, hd]
          · exact h2 x hx⟩
    | some b =>
        obtain ⟨h1, h2, h3, h4⟩ := h
        refine ⟨h1, List.mem_cons_of_mem _ h2, h3, ?_⟩
        intro x hx hne
        rcases List.mem_cons.1 hx with hx | hx
        · exact absurd (hx.trans hd) hne
        · exact h4 x hx hne
  · rw [if_neg hex]
    have hd : d ≠ excl := fun he => hex ((pltLt_both_not_iff d excl).2 he)
    simp only [if_neg_abs]
    obtain ⟨ob, dd⟩ := acc
    cases ob with
    | none =>
        obtain ⟨h1, h2⟩ := h
        rw [if_pos (Or.inl h1)]
        refine ⟨rfl, List.mem_cons_self _ _, hd, ?_⟩
        intro x hx hne
        rcases List.mem_cons.1 hx with hx | hx
        · rw [hx]
        · exact absurd (h2 x hx) hne
    | some b =>
        obtain ⟨h1, h2, h3, h4⟩ := h
        have hdd : 0 ≤ dd := h1 ▸ abs_nonneg _
        by_cases hlt : |d.elo - target.elo| < dd
        · rw [if_pos (Or.inr hlt)]
          refine ⟨rfl, List.mem_cons_self _ _, hd, ?_⟩
          intro x hx hne
          rcases List.mem_cons.1 hx with hx | hx
          · rw [hx]
          · exact le_of_lt (lt_of_lt_of_le hlt (h4 x hx hne))
        · rw [if_neg (by push_neg; exact ⟨by omega, by omega⟩)]
          refine ⟨h1, List.mem_cons_of_mem _ h2, h3, ?_⟩
          intro x hx hne
          rcases List.mem_cons.1 hx with hx | hx
          · rw [hx]; omega
          · exact h4 x hx hne

/-- The accumulator invariant is preserved by the whole helper: after
searching `t`, the accumulator is good for `t`'s entries on top of what
was already seen. -/
theorem fceHelper_good (target excl : PlayerELO) :
    ∀ (t : AvlTree) (seen : List PlayerELO) (acc : Option PlayerELO × Int),
      goodAcc target excl seen acc →
      goodAcc target excl (t.entries ++ seen) (fceHelper t target excl acc) := by
  intro t
  induction t with
  | nil =>
      intro seen acc h
      simp only [fceHelper, entries, List.nil_append]
      exact h
  | node d l r ht ihl ihr =>
      intro seen acc h
      have hmem : ∀ x, x ∈ entries r ++ (entries l ++ (d :: seen)) ↔
          x ∈ entries (node d l r ht) ++ seen := by
        intro x
        simp [entries, List.mem_append, List.mem_cons]
        tauto
      have hmem2 : ∀ x, x ∈ entries l ++ (entries r ++ (d :: seen)) ↔
          x ∈ entries (node d l r ht) ++ seen := by
        intro x
        simp [entries, List.mem_append, List.mem_cons]
        tauto
      have h1 := goodAcc_consider target excl d seen acc h
      show goodAcc target excl _ (fceHelper (node d l r ht) target excl acc)
      rw [fceHelper]
      by_cases hdir : pltLt target d
      · rw [if_pos hdir]
        have h2 := ihl (d :: seen) _ h1
        by_cases hskip : (fceHelper l target excl (fceConsider target excl d acc)).2 < 0 ∨ r ≠ nil
        · rw [if_pos hskip]
          exact goodAcc_mono target excl _ _ _ hmem (ihr _ _ h2)
        · rw [if_neg hskip]
          push_neg at hskip
          obtain ⟨-, hr⟩ := hskip
          subst hr
          refine goodAcc_mono target excl _ _ _ ?_ h2
          intro x
          simp [entries, List.mem_append, List.mem_cons]
          try tauto
      · rw [if_neg hdir]
        have h2 := ihr (d :: seen) _ h1
        by_cases hskip : (fceHelper r target excl (fceConsider target excl d acc)).2 < 0 ∨ l ≠ nil
        · rw [if_pos hskip]
          exact goodAcc_mono target excl _ _ _ hmem2 (ihl _ _ h2)
        · rw [if_neg hskip]
          push_neg at hskip
          obtain ⟨-, hl⟩ := hskip
          subst hl
          refine goodAcc_mono target excl _ _ _ ?_ h2
          intro x
          simp [entries, List.mem_append, List.mem_cons]
          try tauto

end AvlTree

/-- A successful `findClosestExcluding` result is an entry of the tree
that is not the excluded key. -/
theorem fce_some_mem_ne (t : AvlTree) (target excl b : PlayerELO)
    (h : AvlTree.findClosestExcluding t target excl = some b) :
    b ∈ t.entries ∧ b ≠ excl := by
  have hfc : AvlTree.findClosestExcluding t target excl =
      (AvlTree.fceHelper t target excl (none, -1)).1 := by
    cases t <;> rfl
  have hgood := AvlTree.fceHelper_good target excl t [] (none, -1) ⟨by norm_num, by simp⟩
  rw [List.append_nil] at hgood
  rw [hfc] at h
  rcases hacc : AvlTree.fceHelper t target excl (none, -1) with ⟨ob, dd⟩
  rw [hacc] at h hgood
  cases ob with
  | none => exact absurd h (by simp)
  | some c =>
      obtain ⟨-, hm, hne, -⟩ := hgood
      cases Option.some.inj h
      exact ⟨hm, hne⟩

/-- C1: provided every entry carrying the excluded player's id is the
excluded `(skill, id)` key itself (true whenever index entries carry
current ratings), `findClosestExcluding` returns none exactly when every
entry belongs to the excluded player (in particular on an empty index),
and otherwise returns an entry of another player whose absolute skill
difference from the target skill is minimal among all such entries. -/
theorem claim_C1_findClosestExcluding_minimal (t : AvlTree) (target excl : PlayerELO)
    (hcur : ∀ x ∈ t.entries, x.playerId = excl.playerId → x = excl) :
    (AvlTree.findClosestExcluding t target excl = none ↔
      ∀ x ∈ t.entries, x.playerId = excl.playerId) ∧
    (∀ b, AvlTree.findClosestExcluding t target excl = some b →
      b ∈ t.entries ∧ b.playerId ≠ excl.playerId ∧
      ∀ x ∈ t.entries, x.playerId ≠ excl.playerId →
        |b.elo - target.elo| ≤ |x.elo - target.elo|) := by
  have hfc : AvlTree.findClosestExcluding t target excl =
      (AvlTree.fceHelper t target excl (none, -1)).1 := by
    cases t <;> rfl
  have hgood := AvlTree.fceHelper_good target excl t [] (none, -1) ⟨by norm_num, by simp⟩
  rw [List.append_nil] at hgood
  rcases hacc : AvlTree.fceHelper t target excl (none, -1) with ⟨ob, dd⟩
  rw [hacc] at hgood hfc
  cases ob with
  | none =>
      obtain ⟨-, hall⟩ := hgood
      constructor
      · constructor
        · intro _ x hx
          rw [hall x hx]
        · intro _
          rw [hfc]
      · intro b hb
        rw [hfc] at hb
        exact absurd hb (by simp)
  | some b =>
      obtain ⟨hdd, hmemb, hbne, hmin⟩ := hgood
      constructor
      · constructor
        · intro hnone
          rw [hfc] at hnone
          exact absurd hnone (by simp)
        · intro hall
          exact absurd (hcur b hmemb (hall b hmemb)) hbne
      · intro c hc
        rw [hfc] at hc
        cases Option.some.inj hc
        refine ⟨hmemb, fun hpid => hbne (hcur b hmemb hpid), ?_⟩
        intro x hx hxpid
        have hxne : x ≠ excl := fun he => hxpid (he ▸ rfl)
        have := hmin x hx hxne
        omega

/-- The two-entry index used by the C1 witness. -/
def c1Tree : AvlTree := AvlTree.insertNode (AvlTree.insertNode AvlTree.nil ⟨1000, 1⟩) ⟨1200, 2⟩

/-- Witness for C1 at a concrete input: excluding player 1's own entry in
a two-entry index. -/
theorem claim_C1_witness :
    (∀ x ∈ c1Tree.entries, x.playerId = (PlayerELO.mk 1000 1).playerId → x = ⟨1000, 1⟩) ∧
    ((AvlTree.findClosestExcluding c1Tree ⟨1000, 1⟩ ⟨1000, 1⟩ = none ↔
        ∀ x ∈ c1Tree.entries, x.playerId = (PlayerELO.mk 1000 1).playerId) ∧
      (∀ b, AvlTree.findClosestExcluding c1Tree ⟨1000, 1⟩ ⟨1000, 1⟩ = some b →
        b ∈ c1Tree.entries ∧ b.playerId ≠ (PlayerELO.mk 1000 1).playerId ∧
        ∀ x ∈ c1Tree.entries, x.playerId ≠ (PlayerELO.mk 1000 1).playerId →
          |b.elo - (PlayerELO.mk 1000 1).elo| ≤ |x.elo - (PlayerELO.mk 1000 1).elo|)) :=
  ⟨by decide, claim_C1_findClosestExcluding_minimal c1Tree ⟨1000, 1⟩ ⟨1000, 1⟩ (by decide)⟩

/-- The index used for the C2 counterexample: inserting (1100, 1) then
(900, 2) puts 1100 at the root with 900 as its left child. -/
def c2Tree : AvlTree := AvlTree.insertNode (AvlTree.insertNode AvlTree.nil ⟨1100, 1⟩) ⟨900, 2⟩

/-- C2 counterexample: the index holds the non-excluded entries (900, 2)
and (1100, 1), both at absolute distance 100 from target skill 1000, one
below and one above; the claim demands the lower-skill entry (900, 2),
but `findClosestExcluding` returns (1100, 1). -/
theorem claim_C2_counterexample :
    AvlTree.findClosestExcluding c2Tree ⟨1000, 5⟩ ⟨500, 99⟩ = some ⟨1100, 1⟩ ∧
    (⟨900, 2⟩ : PlayerELO) ∈ c2Tree.entries ∧
    (⟨1100, 1⟩ : PlayerELO) ∈ c2Tree.entries ∧
    (⟨900, 2⟩ : PlayerELO) ≠ ⟨500, 99⟩ ∧
    (⟨1100, 1⟩ : PlayerELO) ≠ ⟨500, 99⟩ ∧
    |(1100 : Int) - 1000| = |(900 : Int) - 1000| ∧ (900 : Int) < 1100 ∧
    AvlTree.findClosestExcluding c2Tree ⟨1000, 5⟩ ⟨500, 99⟩ ≠ some ⟨900, 2⟩ := by
  decide

/-- C2 amended: on a distance tie between two non-excluded entries on
opposite sides of the target, `findClosestExcludingHelper` keeps the
entry encountered first in its root-first search order, not the
lower-skill one: with the higher entry at the root (inserted first) and
the lower as its left child, the higher entry is returned. -/
theorem claim_C2_amended_tie_to_first_visited (t d i j tid : Int) (excl : PlayerELO)
    (hd : 0 < d) (h1 : excl ≠ ⟨t + d, i⟩) (h2 : excl ≠ ⟨t - d, j⟩) :
    AvlTree.findClosestExcluding
      (AvlTree.insertNode (AvlTree.insertNode AvlTree.nil ⟨t + d, i⟩) ⟨t - d, j⟩)
      ⟨t, tid⟩ excl = some ⟨t + d, i⟩ := by
  have hAne : (!(pltLt ⟨t + d, i⟩ excl) && !(pltLt excl ⟨t + d, i⟩)) = false := by
    rw [Bool.eq_false_iff]
    intro hh
    exact h1 (((pltLt_both_not_iff ⟨t + d, i⟩ excl).1 hh).symm)
  have hBne : (!(pltLt ⟨t - d, j⟩ excl) && !(pltLt excl ⟨t - d, j⟩)) = false := by
    rw [Bool.eq_false_iff]
    intro hh
    exact h2 (((pltLt_both_not_iff ⟨t - d, j⟩ excl).1 hh).symm)
  have htA : pltLt ⟨t, tid⟩ ⟨t + d, i⟩ = true := by
    simp only [pltLt]
    rw [if_pos (show (t : Int) ≠ t + d by omega)]
    exact decide_eq_true (by omega)
  have htB : pltLt ⟨t, tid⟩ ⟨t - d, j⟩ = false := by
    simp only [pltLt]
    rw [if_pos (show (t : Int) ≠ t - d by omega)]
    exact decide_eq_false (by omega)
  have hBA : pltLt ⟨t - d, j⟩ ⟨t + d, i⟩ = true := by
    simp only [pltLt]
    rw [if_pos (show (t - d : Int) ≠ t + d by omega)]
    exact decide_eq_true (by omega)
  have hins : AvlTree.insertNode (AvlTree.insertNode AvlTree.nil ⟨t + d, i⟩) ⟨t - d, j⟩ =
      AvlTree.node ⟨t + d, i⟩ (AvlTree.node ⟨t - d, j⟩ AvlTree.nil AvlTree.nil 1) AvlTree.nil 2 := by
    show AvlTree.insertNode (AvlTree.node ⟨t + d, i⟩ AvlTree.nil AvlTree.nil 1) ⟨t - d, j⟩ = _
    rw [AvlTree.insertNode, if_pos hBA]
    show AvlTree.balance (AvlTree.node ⟨t + d, i⟩
      (AvlTree.node ⟨t - d, j⟩ AvlTree.nil AvlTree.nil 1) AvlTree.nil 1) = _
    rw [AvlTree.balance]
    norm_num [AvlTree.getHeight, AvlTree.getBalance]
  have hconsA : AvlTree.fceConsider ⟨t, tid⟩ excl ⟨t + d, i⟩ (none, -1) =
      (some ⟨t + d, i⟩, d) := by
    rw [AvlTree.fceConsider, if_neg (by rw [hAne]; simp)]
    show (if ((-1 : Int) < 0 ∨
          (if (t + d - t : Int) < 0 then -(t + d - t) else t + d - t) < (-1 : Int))
        then (some (⟨t + d, i⟩ : PlayerELO),
          if (t + d - t : Int) < 0 then -(t + d - t) else t + d - t)
        else ((none : Option PlayerELO), (-1 : Int))) = (some ⟨t + d, i⟩, d)
    rw [if_pos (Or.inl (by norm_num)), if_neg (show ¬(t + d - t : Int) < 0 by omega)]
    simp only [Prod.mk.injEq, true_and]
    ring
  have hconsB : AvlTree.fceConsider ⟨t, tid⟩ excl ⟨t - d, j⟩ (some ⟨t + d, i⟩, d) =
      (some ⟨t + d, i⟩, d) := by
    rw [AvlTree.fceConsider, if_neg (by rw [hBne]; simp)]
    show (if ((d : Int) < 0 ∨
          (if (t - d - t : Int) < 0 then -(t - d - t) else t - d - t) < d)
        then (some (⟨t - d, j⟩ : PlayerELO),
          if (t - d - t : Int) < 0 then -(t - d - t) else t - d - t)
        else (some (⟨t + d, i⟩ : PlayerELO), d)) = (some ⟨t + d, i⟩, d)
    rw [show (if (t - d - t : Int) < 0 then -(t - d - t) else t - d - t) = d from by
      rw [if_pos (show (t - d - t : Int) < 0 by omega)]; ring]
    rw [if_neg (by omega)]
  rw [hins]
  show (AvlTree.fceHelper
      (AvlTree.node ⟨t + d, i⟩ (AvlTree.node ⟨t - d, j⟩ AvlTree.nil AvlTree.nil 1) AvlTree.nil 2)
      ⟨t, tid⟩ excl (none, -1)).1 = some ⟨t + d, i⟩
  simp only [AvlTree.fceHelper]
  simp only [hconsA, htA, if_true]
  simp only [hconsB, htB]
  simp

/-- Witness for the amended C2 at a concrete input. -/
theorem claim_C2_amended_witness :
    (0 : Int) < 100 ∧ (⟨500, 99⟩ : PlayerELO) ≠ ⟨1000 + 100, 1⟩ ∧
    (⟨500, 99⟩ : PlayerELO) ≠ ⟨1000 - 100, 2⟩ ∧
    AvlTree.findClosestExcluding
      (AvlTree.insertNode (AvlTree.insertNode AvlTree.nil ⟨1000 + 100, 1⟩) ⟨1000 - 100, 2⟩)
      ⟨1000, 5⟩ ⟨500, 99⟩ = some ⟨1000 + 100, 1⟩ :=
  ⟨by decide, by decide, by decide,
   claim_C2_amended_tie_to_first_visited 1000 100 1 2 5 ⟨500, 99⟩
     (by decide) (by decide) (by decide)⟩

/-- C6: provided every entry for the querying player in the game's
ranking index carries that player's current rating, `findClosestOpponent`
returns no opponent (`-1`) whenever the index holds fewer than 2 entries,
and whenever it returns an opponent, that opponent is not the querying
player itself. -/
theorem claim_C6_no_self_opponent (st : Engine) (pid : Int) (g : String) (p : Player)
    (tr : AvlTree)
    (hp : HTable.get st.playerStorage pid = some p)
    (ht : Engine.getTreeOpt st g = some tr)
    (hcur : ∀ x ∈ tr.entries, x.playerId = pid → x.elo = p.elo) :
    (tr.size < 2 → Engine.findClosestOpponentR st pid g = -1) ∧
    (Engine.findClosestOpponentR st pid g ≠ -1 → Engine.findClosestOpponentR st pid g ≠ pid) := by
  unfold Engine.findClosestOpponentR
  rw [hp, ht]
  dsimp only
  constructor
  · intro hsz
    rw [if_pos hsz]
  · intro hne
    by_cases hsz : tr.size < 2
    · rw [if_pos hsz]
      rw [if_pos hsz] at hne
      exact absurd rfl hne
    · rw [if_neg hsz] at hne ⊢
      rcases hres : AvlTree.findClosestExcluding tr ⟨p.elo, pid⟩ ⟨p.elo, pid⟩ with _ | c
      · rw [hres] at hne
        exact absurd rfl hne
      · show c.playerId ≠ pid
        obtain ⟨hmem, hcne⟩ := fce_some_mem_ne tr ⟨p.elo, pid⟩ ⟨p.elo, pid⟩ c hres
        intro hcp
        apply hcne
        have helo : c.elo = p.elo := hcur c hmem hcp
        cases c with | mk ce ci =>
        cases helo
        cases hcp
        rfl

/-- Witness for C6 at a concrete input. -/
theorem claim_C6_witness :
    (HTable.get
        (Engine.init (mkDirectory [mkHuman 1 "a" 1000, mkHuman 2 "b" 1200]) 0).playerStorage 1 =
      some (mkHuman 1 "a" 1000)) ∧
    ((c1Tree.size < 2 →
      Engine.findClosestOpponentR
        { Engine.init (mkDirectory [mkHuman 1 "a" 1000, mkHuman 2 "b" 1200]) 0 with
            pingpongRankings := c1Tree } 1 "pingpong" = -1) ∧
    (Engine.findClosestOpponentR
        { Engine.init (mkDirectory [mkHuman 1 "a" 1000, mkHuman 2 "b" 1200]) 0 with
            pingpongRankings := c1Tree } 1 "pingpong" ≠ -1 →
      Engine.findClosestOpponentR
        { Engine.init (mkDirectory [mkHuman 1 "a" 1000, mkHuman 2 "b" 1200]) 0 with
            pingpongRankings := c1Tree } 1 "pingpong" ≠ 1)) :=
  ⟨by decide,
   claim_C6_no_self_opponent
     { Engine.init (mkDirectory [mkHuman 1 "a" 1000, mkHuman 2 "b" 1200]) 0 with
         pingpongRankings := c1Tree } 1 "pingpong" (mkHuman 1 "a" 1000) c1Tree
     (by decide) (by decide) (by decide)⟩

theorem listGetD_set_self {α : Type _} :
    ∀ (bs : List α) (i : Nat) (x d : α), i < bs.length →
      (bs.set i x).getD i d = x
  | [], i, x, d, h => absurd h (by simp)
  | _ :: _, 0, _, _, _ => rfl
  | _ :: bs, i + 1, x, d, h => listGetD_set_self bs i x d (by simpa using h)

theorem listGetD_set_ne {α : Type _} :
    ∀ (bs : List α) (i j : Nat) (x d : α), i ≠ j →
      (bs.set i x).getD j d = bs.getD j d
  | [], _, _, _, _, _ => rfl
  | _ :: _, 0, 0, _, _, h => absurd rfl h
  | _ :: _, 0, _ + 1, _, _, _ => rfl
  | _ :: _, _ + 1, 0, _, _, _ => rfl
  | _ :: bs, i + 1, j + 1, x, d, h =>
      listGetD_set_ne bs i j x d (fun hh => h (by rw [hh]))

theorem listGetD_of_ge {α : Type _} :
    ∀ (bs : List α) (i : Nat) (d : α), bs.length ≤ i → bs.getD i d = d
  | [], _, _, _ => by simp [List.getD]
  | _ :: _, 0, _, h => absurd h (by simp)
  | _ :: bs, i + 1, d, h => listGetD_of_ge bs i d (by simpa using h)

namespace HTable

variable {V : Type}

theorem bucketFind_overwrite_self (b : List (KVPair V)) (k : Int) (v : V)
    (h : bucketFind b k ≠ none) : bucketFind (bucketOverwrite b k v) k = some v := by
  induction b with
  | nil => exact absurd rfl h
  | cons p ps ih =>
      by_cases hk : p.key = k
      · simp [bucketFind, bucketOverwrite, hk]
      · rw [bucketOverwrite, if_neg hk, bucketFind, if_neg hk]
        exact ih (by rwa [bucketFind, if_neg hk] at h)

theorem bucketFind_overwrite_ne (b : List (KVPair V)) (k k2 : Int) (v : V)
    (h : k ≠ k2) : bucketFind (bucketOverwrite b k2 v) k = bucketFind b k := by
  induction b with
  | nil => rfl
  | cons p ps ih =>
      by_cases hk : p.key = k2
      · have hpk : ¬(p.key = k) := by rw [hk]; exact fun hh => h hh.symm
        rw [bucketOverwrite, if_pos hk]
        show (if p.key = k then some v else bucketFind ps k) =
          if p.key = k then some p.value else bucketFind ps k
        rw [if_neg hpk, if_neg hpk]
      · rw [bucketOverwrite, if_neg hk, bucketFind, bucketFind]
        by_cases hpk : p.key = k
        · rw [if_pos hpk, if_pos hpk]
        · rw [if_neg hpk, if_neg hpk]
          exact ih

theorem tableSize_setBucket (t : HTable V) (i : Nat) (b : List (KVPair V)) :
    tableSize (setBucket t i b) = tableSize t := by
  simp [tableSize, setBucket]

theorem hashIdx_setBucket (t : HTable V) (i : Nat) (b : List (KVPair V)) (k : Int) :
    hashIdx (setBucket t i b) k = hashIdx t k := by
  simp [hashIdx, tableSize_setBucket]

/-- The key's bucket is in range whenever its scan can find anything. -/
theorem bucketIdx_lt_of_find_some (t : HTable V) (k : Int) (w : V)
    (h : bucketFind (t.buckets.getD (hashIdx t k) []) k = some w) :
    hashIdx t k < t.buckets.length := by
  by_contra hge
  rw [listGetD_of_ge t.buckets (hashIdx t k) [] (by omega)] at h
  exact absurd h (by simp [bucketFind])

theorem update_get_self (t : HTable V) (k : Int) (v w : V)
    (h : get t k = some w) : get (update t k v).2 k = some v := by
  have h2 : bucketFind (t.buckets.getD (hashIdx t k) []) k = some w := h
  have hlt := bucketIdx_lt_of_find_some t k w h2
  have hupd : (update t k v).2 =
      setBucket t (hashIdx t k) (bucketOverwrite (t.buckets.getD (hashIdx t k) []) k v) := by
    unfold update
    show (match bucketFind (t.buckets.getD (hashIdx t k) []) k with
      | some _ => (true,
          setBucket t (hashIdx t k) (bucketOverwrite (t.buckets.getD (hashIdx t k) []) k v))
      | none => (false, t)).2 = _
    rw [h2]
  rw [hupd]
  show bucketFind (((setBucket t (hashIdx t k)
      (bucketOverwrite (t.buckets.getD (hashIdx t k) []) k v)).buckets).getD
    (hashIdx (setBucket t (hashIdx t k)
      (bucketOverwrite (t.buckets.getD (hashIdx t k) []) k v)) k) []) k = some v
  rw [hashIdx_setBucket]
  show bucketFind ((t.buckets.set (hashIdx t k)
      (bucketOverwrite (t.buckets.getD (hashIdx t k) []) k v)).getD (hashIdx t k) []) k = some v
  rw [listGetD_set_self t.buckets (hashIdx t k) _ [] hlt]
  exact bucketFind_overwrite_self _ k v (by rw [h2]; simp)

theorem update_get_ne (t : HTable V) (k k2 : Int) (v : V) (h : k ≠ k2) :
    get (update t k2 v).2 k = get t k := by
  rcases hf : bucketFind (t.buckets.getD (hashIdx t k2) []) k2 with _ | w
  · have hupd : (update t k2 v).2 = t := by
      unfold update
      show (match bucketFind (t.buckets.getD (hashIdx t k2) []) k2 with
        | some _ => (true,
            setBucket t (hashIdx t k2) (bucketOverwrite (t.buckets.getD (hashIdx t k2) []) k2 v))
        | none => (false, t)).2 = t
      rw [hf]
    rw [hupd]
  · have hlt := bucketIdx_lt_of_find_some t k2 w hf
    have hupd : (update t k2 v).2 =
        setBucket t (hashIdx t k2) (bucketOverwrite (t.buckets.getD (hashIdx t k2) []) k2 v) := by
      unfold update
      show (match bucketFind (t.buckets.getD (hashIdx t k2) []) k2 with
        | some _ => (true,
            setBucket t (hashIdx t k2) (bucketOverwrite (t.buckets.getD (hashIdx t k2) []) k2 v))
        | none => (false, t)).2 = _
      rw [hf]
    rw [hupd]
    show bucketFind (((setBucket t (hashIdx t k2)
        (bucketOverwrite (t.buckets.getD (hashIdx t k2) []) k2 v)).buckets).getD
      (hashIdx (setBucket t (hashIdx t k2)
        (bucketOverwrite (t.buckets.getD (hashIdx t k2) []) k2 v)) k) []) k = get t k
    rw [hashIdx_setBucket]
    by_cases hik : hashIdx t k = hashIdx t k2
    · rw [hik]
      show bucketFind ((t.buckets.set (hashIdx t k2)
          (bucketOverwrite (t.buckets.getD (hashIdx t k2) []) k2 v)).getD (hashIdx t k2) []) k = _
      rw [listGetD_set_self t.buckets (hashIdx t k2) _ [] hlt]
      rw [bucketFind_overwrite_ne _ k k2 v h]
      show bucketFind (t.buckets.getD (hashIdx t k2) []) k = get t k
      unfold get
      rw [hik]
    · show bucketFind ((t.buckets.set (hashIdx t k2)
          (bucketOverwrite (t.buckets.getD (hashIdx t k2) []) k2 v)).getD (hashIdx t k) []) k = _
      rw [listGetD_set_ne t.buckets (hashIdx t k2) (hashIdx t k) _ [] (fun hh => hik hh.symm)]
      rfl

end HTable

namespace Engine

@[simp] theorem setTree_playerStorage (st : Engine) (g : String) (t : AvlTree) :
    (setTree st g t).playerStorage = st.playerStorage := by
  unfold setTree; split_ifs <;> rfl

@[simp] theorem setTree_activeMatches (st : Engine) (g : String) (t : AvlTree) :
    (setTree st g t).activeMatches = st.activeMatches := by
  unfold setTree; split_ifs <;> rfl

@[simp] theorem setTree_histories (st : Engine) (g : String) (t : AvlTree) :
    (setTree st g t).histories = st.histories := by
  unfold setTree; split_ifs <;> rfl

@[simp] theorem setTree_pingpongQueue (st : Engine) (g : String) (t : AvlTree) :
    (setTree st g t).pingpongQueue = st.pingpongQueue := by
  unfold setTree; split_ifs <;> rfl

@[simp] theorem setTree_snakeQueue (st : Engine) (g : String) (t : AvlTree) :
    (setTree st g t).snakeQueue = st.snakeQueue := by
  unfold setTree; split_ifs <;> rfl

@[simp] theorem setTree_tankQueue (st : Engine) (g : String) (t : AvlTree) :
    (setTree st g t).tankQueue = st.tankQueue := by
  unfold setTree; split_ifs <;> rfl

@[simp] theorem setTree_pingpongBots (st : Engine) (g : String) (t : AvlTree) :
    (setTree st g t).pingpongBots = st.pingpongBots := by
  unfold setTree; split_ifs <;> rfl

@[simp] theorem setTree_snakeBots (st : Engine) (g : String) (t : AvlTree) :
    (setTree st g t).snakeBots = st.snakeBots := by
  unfold setTree; split_ifs <;> rfl

@[simp] theorem setTree_tankBots (st : Engine) (g : String) (t : AvlTree) :
    (setTree st g t).tankBots = st.tankBots := by
  unfold setTree; split_ifs <;> rfl

end Engine

/-- The winner's rating delta at expected score 1/2:
`static_cast<int>(32 * (1.0 - 0.5)) = 16` (exact float arithmetic). -/
theorem ratTrunc_win_half : ratTrunc (kFactor * (1 - 1 / 2)) = 16 := by
  unfold ratTrunc kFactor
  rw [if_pos (by norm_num)]
  rw [show (32 : ℚ) * (1 - 1 / 2) = ((16 : Int) : ℚ) by norm_num]
  exact Int.floor_intCast 16

/-- The loser's rating delta at expected score 1/2:
`static_cast<int>(32 * (0.0 - 0.5)) = -16` (truncation toward zero). -/
theorem ratTrunc_loss_half : ratTrunc (kFactor * (0 - 1 / 2)) = -16 := by
  unfold ratTrunc kFactor
  rw [if_neg (by norm_num)]
  rw [show (32 : ℚ) * (0 - 1 / 2) = ((-16 : Int) : ℚ) by norm_num]
  exact Int.ceil_intCast (-16)

/-- C5: after `updateRankings(winnerId, loserId, game)` with equal
pre-match ratings (where the float expected score is exactly 1/2 for both
players), the winner's rating strictly increases and the loser's strictly
decreases, the winner's gain equals the loser's loss in magnitude, and
with K = 32 both change by exactly 16. -/
theorem claim_C5_elo_update_equal_ratings (E : Int → Int → ℚ) (st : Engine)
    (winnerId loserId : Int) (g : String) (w l : Player) (tr : AvlTree)
    (hne : winnerId ≠ loserId)
    (hw : HTable.get st.playerStorage winnerId = some w)
    (hl : HTable.get st.playerStorage loserId = some l)
    (ht : Engine.getTreeOpt st g = some tr)
    (heq : w.elo = l.elo)
    (hE : ∀ a : Int, E a a = 1 / 2) :
    ∃ w2 l2 : Player,
      HTable.get (Engine.updateRankings E st winnerId loserId g).playerStorage winnerId = some w2 ∧
      HTable.get (Engine.updateRankings E st winnerId loserId g).playerStorage loserId = some l2 ∧
      w2.elo = w.elo + 16 ∧ l2.elo = l.elo - 16 ∧
      w.elo < w2.elo ∧ l2.elo < l.elo ∧ w2.elo - w.elo = l.elo - l2.elo := by
  have hEw : E w.elo l.elo = 1 / 2 := by rw [heq]; exact hE l.elo
  have hEl : E l.elo w.elo = 1 / 2 := by rw [heq]; exact hE l.elo
  have hwNew : calculateNewElo w.elo (E w.elo l.elo) 1 = w.elo + 16 := by
    unfold calculateNewElo
    rw [hEw, ratTrunc_win_half]
  have hlNew : calculateNewElo l.elo (E l.elo w.elo) 0 = l.elo - 16 := by
    unfold calculateNewElo
    rw [hEl, ratTrunc_loss_half]
    ring
  unfold Engine.updateRankings
  rw [hw, hl, ht]
  dsimp only
  refine ⟨{ w with elo := calculateNewElo w.elo (E w.elo l.elo) 1, wins := w.wins + 1 },
          { l with elo := calculateNewElo l.elo (E l.elo w.elo) 0, losses := l.losses + 1 },
          ?_, ?_, ?_, ?_, ?_, ?_, ?_⟩
  · rw [HTable.update_get_ne _ winnerId loserId _ hne]
    apply HTable.update_get_self
    rw [Engine.setTree_playerStorage]
    exact hw
  · apply HTable.update_get_self
    rw [HTable.update_get_ne _ loserId winnerId _ (fun hh => hne hh.symm)]
    rw [Engine.setTree_playerStorage]
    exact hl
  · show calculateNewElo w.elo (E w.elo l.elo) 1 = w.elo + 16
    exact hwNew
  · show calculateNewElo l.elo (E l.elo w.elo) 0 = l.elo - 16
    exact hlNew
  · show w.elo < calculateNewElo w.elo (E w.elo l.elo) 1
    rw [hwNew]
    omega
  · show calculateNewElo l.elo (E l.elo w.elo) 0 < l.elo
    rw [hlNew]
    omega
  · show calculateNewElo w.elo (E w.elo l.elo) 1 - w.elo =
      l.elo - calculateNewElo l.elo (E l.elo w.elo) 0
    rw [hwNew, hlNew]
    omega

/-- Witness for C5 at a concrete input: two players with equal rating
1000; the winner moves to 1016 and the loser to 984. -/
theorem claim_C5_witness :
    ((1 : Int) ≠ 2) ∧ ((mkHuman 1 "a" 1000).elo = (mkHuman 2 "b" 1000).elo) ∧
    (∃ w2 l2 : Player,
      HTable.get (Engine.updateRankings eHalf
        (Engine.init (mkDirectory [mkHuman 1 "a" 1000, mkHuman 2 "b" 1000]) 0)
        1 2 "pingpong").playerStorage 1 = some w2 ∧
      HTable.get (Engine.updateRankings eHalf
        (Engine.init (mkDirectory [mkHuman 1 "a" 1000, mkHuman 2 "b" 1000]) 0)
        1 2 "pingpong").playerStorage 2 = some l2 ∧
      w2.elo = (mkHuman 1 "a" 1000).elo + 16 ∧ l2.elo = (mkHuman 2 "b" 1000).elo - 16 ∧
      (mkHuman 1 "a" 1000).elo < w2.elo ∧ l2.elo < (mkHuman 2 "b" 1000).elo ∧
      w2.elo - (mkHuman 1 "a" 1000).elo = (mkHuman 2 "b" 1000).elo - l2.elo) :=
  ⟨by decide, by decide,
   claim_C5_elo_update_equal_ratings eHalf
     (Engine.init (mkDirectory [mkHuman 1 "a" 1000, mkHuman 2 "b" 1000]) 0)
     1 2 "pingpong" (mkHuman 1 "a" 1000) (mkHuman 2 "b" 1000) AvlTree.nil
     (by decide) (by decide) (by decide) (by decide) (by decide) (fun _ => rfl)⟩

/-- The directory for the C4 run: two humans and one bot profile, as the
registration endpoint and the bot-seeding loop create them. -/
def c4dir : HTable Player :=
  mkDirectory [mkHuman 1 "H1" 1000, mkHuman 2 "H2" 1500, mkBot 9 "B" 1010]

/-- The C4 run: register bot 9 for pingpong, let players 1, 2 and then
bot 9 join the pingpong queue (`joinQueue` never checks `isBot`), and
attempt a match.  Player 1 is dequeued, the closest ranked entry is the
bot, so the human-opponent search fails and the bot-fallback path matches
player 1 with bot 9 — without ever removing bot 9's queue entry. -/
def c4run : Engine :=
  let s0 := Engine.init c4dir 0
  let s1 := Engine.registerBot s0 9 "pingpong"
  let s2 := (Engine.joinQueue s1 1 "pingpong").2
  let s3 := (Engine.joinQueue s2 2 "pingpong").2
  let s4 := (Engine.joinQueue s3 9 "pingpong").2
  (Engine.tryCreateMatch s4 "pingpong").2

/-- C4 (refuting the queue invariant): after the reachable operation
sequence of `c4run`, player 9's `inQueue` flag is false (and `inMatch` is
true) although id 9 still sits exactly once in exactly one game's queue
(pingpong, at the back) — so `inQueue` is not equivalent to membership in
exactly one queue. -/
theorem claim_C4_queue_invariant_violated :
    (HTable.get c4run.playerStorage 9).map Player.isInQueue = some false ∧
    (HTable.get c4run.playerStorage 9).map Player.isInMatch = some true ∧
    c4run.pingpongQueue.map QueueEntry.playerId = [2, 9] ∧
    c4run.snakeQueue = [] ∧
    c4run.tankQueue = [] := by
  set_option maxRecDepth 10000 in decide

namespace Engine

/-- Abbreviation for stating C7: a roster id is available when its
profile exists and is not in a match (`!bot || bot->isInMatch` makes the
loop skip it otherwise). -/
def botAvail (st : Engine) (b : Int) : Bool :=
  match HTable.get st.playerStorage b with
  | some p => !p.isInMatch
  | none => false

/-- Abbreviation for stating C7: the absolute rating difference of a
roster id from the target elo (0 for a missing profile, which the loop
never measures). -/
def botDiff (st : Engine) (targetElo b : Int) : Int :=
  match HTable.get st.playerStorage b with
  | some p => |p.elo - targetElo|
  | none => 0

theorem fcboLoop_congr (st1 st2 : Engine) (h : st1.playerStorage = st2.playerStorage)
    (human : Player) (targetElo : Int) :
    ∀ (bots : List Int) (acc : Int × Int × Int × Int),
      fcboLoop st1 human targetElo bots acc = fcboLoop st2 human targetElo bots acc := by
  intro bots
  induction bots with
  | nil => intro acc; rfl
  | cons b rest ih =>
      intro acc
      obtain ⟨bb, bd, fb, fd⟩ := acc
      rw [fcboLoop, fcboLoop, h]
      cases hgb : HTable.get st2.playerStorage b with
      | none => exact ih _
      | some bot =>
          dsimp only
          split_ifs <;> exact ih _

theorem findClosestBotOpponent_congr (st1 st2 : Engine) (g : String)
    (hst : st1.playerStorage = st2.playerStorage)
    (hbots : getBotsOpt st1 g = getBotsOpt st2 g) (hid telo : Int) :
    findClosestBotOpponent st1 hid telo g = findClosestBotOpponent st2 hid telo g := by
  unfold findClosestBotOpponent
  rw [hbots, hst]
  cases getBotsOpt st2 g with
  | none => rfl
  | some bots =>
      dsimp only
      split_ifs
      · rfl
      · cases HTable.get st2.playerStorage hid with
        | none => rfl
        | some human =>
            dsimp only
            rw [fcboLoop_congr st1 st2 hst human telo bots (-1, 999999, -1, 999999)]

@[simp] theorem removePlayerFromRanking_playerStorage (st : Engine) (pid elo : Int)
    (g : String) : (removePlayerFromRanking st pid elo g).playerStorage = st.playerStorage := by
  unfold removePlayerFromRanking
  cases getTreeOpt st g with
  | none => rfl
  | some t => simp

@[simp] theorem addPlayerToRanking_playerStorage (st : Engine) (pid : Int)
    (g : String) : (addPlayerToRanking st pid g).playerStorage = st.playerStorage := by
  unfold addPlayerToRanking
  cases HTable.get st.playerStorage pid with
  | none => rfl
  | some p =>
      dsimp only
      cases getTreeOpt st g with
      | none => rfl
      | some t => simp

theorem getBotsOpt_setQueue (st : Engine) (g2 g : String) (q : List QueueEntry) :
    getBotsOpt (setQueue st g2 q) g = getBotsOpt st g := by
  unfold getBotsOpt
  split_ifs <;> simp

theorem getBotsOpt_setTree (st : Engine) (g2 g : String) (t : AvlTree) :
    getBotsOpt (setTree st g2 t) g = getBotsOpt st g := by
  unfold getBotsOpt
  split_ifs <;> simp

theorem getBotsOpt_removePlayerFromRanking (st : Engine) (pid elo : Int) (g2 g : String) :
    getBotsOpt (removePlayerFromRanking st pid elo g2) g = getBotsOpt st g := by
  unfold removePlayerFromRanking
  cases getTreeOpt st g2 with
  | none => rfl
  | some t => exact getBotsOpt_setTree st g2 g _

theorem getBotsOpt_addPlayerToRanking (st : Engine) (pid : Int) (g2 g : String) :
    getBotsOpt (addPlayerToRanking st pid g2) g = getBotsOpt st g := by
  unfold addPlayerToRanking
  cases HTable.get st.playerStorage pid with
  | none => rfl
  | some p =>
      dsimp only
      cases getTreeOpt st g2 with
      | none => rfl
      | some t => exact getBotsOpt_setTree st g2 g _

theorem getQueueOpt_setTree (st : Engine) (g2 g : String) (t : AvlTree) :
    getQueueOpt (setTree st g2 t) g = getQueueOpt st g := by
  unfold getQueueOpt
  split_ifs <;> simp

theorem getQueueOpt_removePlayerFromRanking (st : Engine) (pid elo : Int) (g2 g : String) :
    getQueueOpt (removePlayerFromRanking st pid elo g2) g = getQueueOpt st g := by
  unfold removePlayerFromRanking
  cases getTreeOpt st g2 with
  | none => rfl
  | some t => exact getQueueOpt_setTree st g2 g _

theorem getQueueOpt_addPlayerToRanking (st : Engine) (pid : Int) (g2 g : String) :
    getQueueOpt (addPlayerToRanking st pid g2) g = getQueueOpt st g := by
  unfold addPlayerToRanking
  cases HTable.get st.playerStorage pid with
  | none => rfl
  | some p =>
      dsimp only
      cases getTreeOpt st g2 with
      | none => rfl
      | some t => exact getQueueOpt_setTree st g2 g _

end Engine

namespace Engine

/-- Invariant of the `(fallbackBotId, fallbackEloDiff)` pair of the
`findClosestBotOpponent` loop over the processed prefix `done`: still the
`(-1, 999999)` sentinel with nothing available, or the first-seen
minimal-difference available roster id. -/
def fcboFbInv (st : Engine) (targetElo : Int) (done : List Int) (p : Int × Int) : Prop :=
  (p.1 = -1 ∧ p.2 = 999999 ∧ ∀ b ∈ done, botAvail st b = false) ∨
  (p.1 ∈ done ∧ botAvail st p.1 = true ∧ p.2 = botDiff st targetElo p.1 ∧
    p.2 < 999999 ∧ ∀ b ∈ done, botAvail st b = true → p.2 ≤ botDiff st targetElo b)

/-- Invariant of the `(bestBotId, bestEloDiff)` pair: sentinel while every
available processed bot was a recent opponent, or the minimal-difference
available non-recent roster id. -/
def fcboBbInv (st : Engine) (human : Player) (targetElo : Int) (done : List Int)
    (p : Int × Int) : Prop :=
  (p.1 = -1 ∧ p.2 = 999999 ∧
    ∀ b ∈ done, botAvail st b = true → human.wasRecentOpponent b = true) ∨
  (p.1 ∈ done ∧ botAvail st p.1 = true ∧ human.wasRecentOpponent p.1 = false ∧
    p.2 = botDiff st targetElo p.1 ∧ p.2 < 999999 ∧
    ∀ b ∈ done, botAvail st b = true → human.wasRecentOpponent b = false →
      p.2 ≤ botDiff st targetElo b)

theorem fcboFbInv_mono (st : Engine) (targetElo : Int) (s1 s2 : List Int) (p : Int × Int)
    (hsub : ∀ x, x ∈ s1 ↔ x ∈ s2) :
    fcboFbInv st targetElo s1 p → fcboFbInv st targetElo s2 p := by
  rintro (⟨h1, h2, h3⟩ | ⟨h1, h2, h3, h4, h5⟩)
  · exact Or.inl ⟨h1, h2, fun b hb => h3 b ((hsub b).2 hb)⟩
  · exact Or.inr ⟨(hsub _).1 h1, h2, h3, h4, fun b hb => h5 b ((hsub b).2 hb)⟩

theorem fcboBbInv_mono (st : Engine) (human : Player) (targetElo : Int) (s1 s2 : List Int)
    (p : Int × Int) (hsub : ∀ x, x ∈ s1 ↔ x ∈ s2) :
    fcboBbInv st human targetElo s1 p → fcboBbInv st human targetElo s2 p := by
  rintro (⟨h1, h2, h3⟩ | ⟨h1, h2, h3, h4, h5, h6⟩)
  · exact Or.inl ⟨h1, h2, fun b hb => h3 b ((hsub b).2 hb)⟩
  · exact Or.inr ⟨(hsub _).1 h1, h2, h3, h4, h5, fun b hb => h6 b ((hsub b).2 hb)⟩

theorem fcboFbInv_skip (st : Engine) (targetElo : Int) (done : List Int) (p : Int × Int)
    (b : Int) (hna : botAvail st b = false) (h : fcboFbInv st targetElo done p) :
    fcboFbInv st targetElo (b :: done) p := by
  rcases h with ⟨h1, h2, h3⟩ | ⟨h1, h2, h3, h4, h5⟩
  · refine Or.inl ⟨h1, h2, ?_⟩
    intro x hx
    rcases List.mem_cons.1 hx with hx | hx
    · rw [hx]; exact hna
    · exact h3 x hx
  · refine Or.inr ⟨List.mem_cons_of_mem _ h1, h2, h3, h4, ?_⟩
    intro x hx hav
    rcases List.mem_cons.1 hx with hx | hx
    · rw [hx] at hav; rw [hav] at hna; exact absurd hna (by simp)
    · exact h5 x hx hav

theorem fcboFbInv_step (st : Engine) (targetElo : Int) (done : List Int) (fb fd b : Int)
    (havail : botAvail st b = true) (hDlt : botDiff st targetElo b < 999999)
    (h : fcboFbInv st targetElo done (fb, fd)) :
    fcboFbInv st targetElo (b :: done)
      (if botDiff st targetElo b < fd then (b, botDiff st targetElo b) else (fb, fd)) := by
  rcases h with ⟨h1, h2, h3⟩ | ⟨h1, h2, h3, h4, h5⟩
  · rw [if_pos (by omega)]
    refine Or.inr ⟨List.mem_cons_self _ _, havail, rfl, hDlt, ?_⟩
    intro x hx hav
    rcases List.mem_cons.1 hx with hx | hx
    · rw [hx]
    · rw [h3 x hx] at hav; exact absurd hav (by simp)
  · by_cases hlt : botDiff st targetElo b < fd
    · rw [if_pos hlt]
      refine Or.inr ⟨List.mem_cons_self _ _, havail, rfl, hDlt, ?_⟩
      intro x hx hav
      rcases List.mem_cons.1 hx with hx | hx
      · rw [hx]
      · have := h5 x hx hav; omega
    · rw [if_neg hlt]
      refine Or.inr ⟨List.mem_cons_of_mem _ h1, h2, h3, h4, ?_⟩
      intro x hx hav
      rcases List.mem_cons.1 hx with hx | hx
      · rw [hx]; omega
      · exact h5 x hx hav

theorem fcboBbInv_skip_unavail (st : Engine) (human : Player) (targetElo : Int)
    (done : List Int) (p : Int × Int) (b : Int) (hna : botAvail st b = false)
    (h : fcboBbInv st human targetElo done p) :
    fcboBbInv st human targetElo (b :: done) p := by
  rcases h with ⟨h1, h2, h3⟩ | ⟨h1, h2, h3, h4, h5, h6⟩
  · refine Or.inl ⟨h1, h2, ?_⟩
    intro x hx hav
    rcases List.mem_cons.1 hx with hx | hx
    · rw [hx] at hav; rw [hav] at hna; exact absurd hna (by simp)
    · exact h3 x hx hav
  · refine Or.inr ⟨List.mem_cons_of_mem _ h1, h2, h3, h4, h5, ?_⟩
    intro x hx hav hrec
    rcases List.mem_cons.1 hx with hx | hx
    · rw [hx] at hav; rw [hav] at hna; exact absurd hna (by simp)
    · exact h6 x hx hav hrec

theorem fcboBbInv_skip_recent (st : Engine) (human : Player) (targetElo : Int)
    (done : List Int) (p : Int × Int) (b : Int) (hrec : human.wasRecentOpponent b = true)
    (h : fcboBbInv st human targetElo done p) :
    fcboBbInv st human targetElo (b :: done) p := by
  rcases h with ⟨h1, h2, h3⟩ | ⟨h1, h2, h3, h4, h5, h6⟩
  · refine Or.inl ⟨h1, h2, ?_⟩
    intro x hx hav
    rcases List.mem_cons.1 hx with hx | hx
    · rw [hx]; exact hrec
    · exact h3 x hx hav
  · refine Or.inr ⟨List.mem_cons_of_mem _ h1, h2, h3, h4, h5, ?_⟩
    intro x hx hav hxrec
    rcases List.mem_cons.1 hx with hx | hx
    · rw [hx] at hxrec; rw [hxrec] at hrec; exact absurd hrec (by simp)
    · exact h6 x hx hav hxrec

theorem fcboBbInv_step (st : Engine) (human : Player) (targetElo : Int) (done : List Int)
    (bb bd b : Int) (havail : botAvail st b = true)
    (hrec : human.wasRecentOpponent b = false) (hDlt : botDiff st targetElo b < 999999)
    (h : fcboBbInv st human targetElo done (bb, bd)) :
    fcboBbInv st human targetElo (b :: done)
      (if botDiff st targetElo b < bd then (b, botDiff st targetElo b) else (bb, bd)) := by
  rcases h with ⟨h1, h2, h3⟩ | ⟨h1, h2, h3, h4, h5, h6⟩
  · rw [if_pos (by omega)]
    refine Or.inr ⟨List.mem_cons_self _ _, havail, hrec, rfl, hDlt, ?_⟩
    intro x hx hav hxrec
    rcases List.mem_cons.1 hx with hx | hx
    · rw [hx]
    · rw [h3 x hx hav] at hxrec; exact absurd hxrec (by simp)
  · by_cases hlt : botDiff st targetElo b < bd
    · rw [if_pos hlt]
      refine Or.inr ⟨List.mem_cons_self _ _, havail, hrec, rfl, hDlt, ?_⟩
      intro x hx hav hxrec
      rcases List.mem_cons.1 hx with hx | hx
      · rw [hx]
      · have := h6 x hx hav hxrec; omega
    · rw [if_neg hlt]
      refine Or.inr ⟨List.mem_cons_of_mem _ h1, h2, h3, h4, h5, ?_⟩
      intro x hx hav hxrec
      rcases List.mem_cons.1 hx with hx | hx
      · rw [hx]; omega
      · exact h6 x hx hav hxrec

/-- The loop of `findClosestBotOpponent` preserves both accumulator
invariants across the whole roster. -/
theorem fcboLoop_inv (st : Engine) (human : Player) (targetElo : Int) :
    ∀ (bots done : List Int) (bb bd fb fd : Int),
      (∀ b ∈ bots, botAvail st b = true → botDiff st targetElo b < 999999) →
      fcboBbInv st human targetElo done (bb, bd) →
      fcboFbInv st targetElo done (fb, fd) →
      fcboBbInv st human targetElo (done ++ bots)
        ((fcboLoop st human targetElo bots (bb, bd, fb, fd)).1,
         (fcboLoop st human targetElo bots (bb, bd, fb, fd)).2.1) ∧
      fcboFbInv st targetElo (done ++ bots)
        ((fcboLoop st human targetElo bots (bb, bd, fb, fd)).2.2.1,
         (fcboLoop st human targetElo bots (bb, bd, fb, fd)).2.2.2) := by
  intro bots
  induction bots with
  | nil =>
      intro done bb bd fb fd hrange hbb hfb
      rw [List.append_nil]
      exact ⟨hbb, hfb⟩
  | cons b rest ih =>
      intro done bb bd fb fd hrange hbb hfb
      have hmem : ∀ x, x ∈ (b :: done) ++ rest ↔ x ∈ done ++ b :: rest := by
        intro x
        simp [List.mem_append, List.mem_cons]
        tauto
      have hrange2 : ∀ x ∈ rest, botAvail st x = true → botDiff st targetElo x < 999999 :=
        fun x hx => hrange x (List.mem_cons_of_mem _ hx)
      rw [fcboLoop]
      cases hgb : HTable.get st.playerStorage b with
      | none =>
          have hna : botAvail st b = false := by unfold botAvail; rw [hgb]
          have step := ih (b :: done) bb bd fb fd hrange2
            (fcboBbInv_skip_unavail st human targetElo done (bb, bd) b hna hbb)
            (fcboFbInv_skip st targetElo done (fb, fd) b hna hfb)
          exact ⟨fcboBbInv_mono st human targetElo _ _ _ hmem step.1,
                 fcboFbInv_mono st targetElo _ _ _ hmem step.2⟩
      | some bot =>
          dsimp only
          by_cases him : bot.isInMatch
          · rw [if_pos him]
            have hna : botAvail st b = false := by
              unfold botAvail; rw [hgb]; simp [him]
            have step := ih (b :: done) bb bd fb fd hrange2
              (fcboBbInv_skip_unavail st human targetElo done (bb, bd) b hna hbb)
              (fcboFbInv_skip st targetElo done (fb, fd) b hna hfb)
            exact ⟨fcboBbInv_mono st human targetElo _ _ _ hmem step.1,
                   fcboFbInv_mono st targetElo _ _ _ hmem step.2⟩
          · rw [if_neg him]
            have havail : botAvail st b = true := by
              unfold botAvail; rw [hgb]; simp [him]
            have hdiffeq : (if bot.elo - targetElo < 0 then -(bot.elo - targetElo)
                else bot.elo - targetElo) = botDiff st targetElo b := by
              unfold botDiff; rw [hgb, if_neg_abs]
            rw [hdiffeq]
            have hDlt : botDiff st targetElo b < 999999 :=
              hrange b (List.mem_cons_self _ _) havail
            have hfb2 := fcboFbInv_step st targetElo done fb fd b havail hDlt hfb
            by_cases hrec : human.wasRecentOpponent b
            · rw [if_pos hrec]
              have hbb2 := fcboBbInv_skip_recent st human targetElo done (bb, bd) b hrec hbb
              by_cases hlt : botDiff st targetElo b < fd
              · rw [if_pos hlt] at hfb2 ⊢
                have step := ih (b :: done) bb bd b (botDiff st targetElo b) hrange2 hbb2 hfb2
                exact ⟨fcboBbInv_mono st human targetElo _ _ _ hmem step.1,
                       fcboFbInv_mono st targetElo _ _ _ hmem step.2⟩
              · rw [if_neg hlt] at hfb2 ⊢
                have step := ih (b :: done) bb bd fb fd hrange2 hbb2 hfb2
                exact ⟨fcboBbInv_mono st human targetElo _ _ _ hmem step.1,
                       fcboFbInv_mono st targetElo _ _ _ hmem step.2⟩
            · rw [if_neg hrec]
              have hbb2 := fcboBbInv_step st human targetElo done bb bd b havail
                (by simpa using hrec) hDlt hbb
              by_cases hltb : botDiff st targetElo b < bd
              · rw [if_pos hltb] at hbb2 ⊢
                by_cases hlt : botDiff st targetElo b < fd
                · rw [if_pos hlt] at hfb2 ⊢
                  have step := ih (b :: done) b (botDiff st targetElo b) b
                    (botDiff st targetElo b) hrange2 hbb2 hfb2
                  exact ⟨fcboBbInv_mono st human targetElo _ _ _ hmem step.1,
                         fcboFbInv_mono st targetElo _ _ _ hmem step.2⟩
                · rw [if_neg hlt] at hfb2 ⊢
                  have step := ih (b :: done) b (botDiff st targetElo b) fb fd hrange2 hbb2 hfb2
                  exact ⟨fcboBbInv_mono st human targetElo _ _ _ hmem step.1,
                         fcboFbInv_mono st targetElo _ _ _ hmem step.2⟩
              · rw [if_neg hltb] at hbb2 ⊢
                by_cases hlt : botDiff st targetElo b < fd
                · rw [if_pos hlt] at hfb2 ⊢
                  have step := ih (b :: done) bb bd b (botDiff st targetElo b) hrange2 hbb2 hfb2
                  exact ⟨fcboBbInv_mono st human targetElo _ _ _ hmem step.1,
                         fcboFbInv_mono st targetElo _ _ _ hmem step.2⟩
                · rw [if_neg hlt] at hfb2 ⊢
                  have step := ih (b :: done) bb bd fb fd hrange2 hbb2 hfb2
                  exact ⟨fcboBbInv_mono st human targetElo _ _ _ hmem step.1,
                         fcboFbInv_mono st targetElo _ _ _ hmem step.2⟩

end Engine

/-- The state for the C7 counterexample: one human (rating 0) and one
registered, idle bot whose rating differs from the target by 1000000,
at or beyond the loop's 999999 sentinel. -/
def c7bad : Engine :=
  Engine.registerBot
    (Engine.init (mkDirectory [mkHuman 1 "h" 0, mkBot 42 "b" 1000000]) 0) 42 "pingpong"

/-- C7 counterexample: bot 42 is registered for pingpong, has a profile
and is not in a match, and no bot is in the human's recent-opponent list,
yet `findClosestBotOpponent` returns failure (`-1`) because the bot's
rating difference from the target does not pass the `999999` sentinel
initialisation of `bestEloDiff`/`fallbackEloDiff`; the claim requires it
to return bot 42. -/
theorem claim_C7_counterexample :
    Engine.findClosestBotOpponent c7bad 1 0 "pingpong" = -1 ∧
    c7bad.pingpongBots = [42] ∧
    (HTable.get c7bad.playerStorage 42).map Player.isInMatch = some false ∧
    (HTable.get c7bad.playerStorage 1).map Player.recentOpponents = some [] := by
  decide

/-- C7 amended: provided bot ids are not the `-1` sentinel and every
available bot's absolute rating difference from the target is below the
`999999` sentinel, `findClosestBotOpponent` fails exactly when no
registered bot is out of a match; otherwise it returns an available
registered bot — of minimal rating difference among the available bots
not in the human's recent-opponent list when such a bot exists, and
otherwise (every available bot recently played) of minimal rating
difference among all available bots; and when it fails inside
`matchHumanWithBot` the dequeued human is re-enqueued at the back of the
game's queue. -/
theorem claim_C7_amended_bot_selection (st : Engine) (g : String) (bots : List Int)
    (humanPlayerId targetElo : Int) (human : Player)
    (hbots : Engine.getBotsOpt st g = some bots)
    (hhuman : HTable.get st.playerStorage humanPlayerId = some human)
    (hsent : ∀ b ∈ bots, b ≠ -1)
    (hrange : ∀ b ∈ bots, Engine.botAvail st b = true →
      Engine.botDiff st targetElo b < 999999) :
    (Engine.findClosestBotOpponent st humanPlayerId targetElo g = -1 ↔
      ∀ b ∈ bots, Engine.botAvail st b = false) ∧
    (Engine.findClosestBotOpponent st humanPlayerId targetElo g ≠ -1 →
      Engine.findClosestBotOpponent st humanPlayerId targetElo g ∈ bots ∧
      Engine.botAvail st (Engine.findClosestBotOpponent st humanPlayerId targetElo g) = true) ∧
    ((∃ b ∈ bots, Engine.botAvail st b = true ∧ human.wasRecentOpponent b = false) →
      human.wasRecentOpponent (Engine.findClosestBotOpponent st humanPlayerId targetElo g)
          = false ∧
      ∀ b ∈ bots, Engine.botAvail st b = true → human.wasRecentOpponent b = false →
        Engine.botDiff st targetElo (Engine.findClosestBotOpponent st humanPlayerId targetElo g)
          ≤ Engine.botDiff st targetElo b) ∧
    ((∃ b ∈ bots, Engine.botAvail st b = true) →
      (∀ b ∈ bots, Engine.botAvail st b = true → human.wasRecentOpponent b = true) →
      ∀ b ∈ bots, Engine.botAvail st b = true →
        Engine.botDiff st targetElo (Engine.findClosestBotOpponent st humanPlayerId targetElo g)
          ≤ Engine.botDiff st targetElo b) ∧
    (∀ (e : QueueEntry) (rest : List QueueEntry),
      Engine.getQueueOpt st g = some (e :: rest) → e.playerId = humanPlayerId →
      human.isBot = false → targetElo = human.elo →
      Engine.findClosestBotOpponent st humanPlayerId targetElo g = -1 →
      ∃ st2, Engine.matchHumanWithBot st g = (-1, st2) ∧
        Engine.getQueueOpt st2 g = some (rest ++ [e])) := by
  have hinv := Engine.fcboLoop_inv st human targetElo bots [] (-1) 999999 (-1) 999999 hrange
    (Or.inl ⟨rfl, rfl, by simp⟩) (Or.inl ⟨rfl, rfl, by simp⟩)
  rw [List.nil_append] at hinv
  obtain ⟨hbbI, hfbI⟩ := hinv
  have hres_eq : Engine.findClosestBotOpponent st humanPlayerId targetElo g =
      (if (Engine.fcboLoop st human targetElo bots (-1, 999999, -1, 999999)).1 = -1
       then (Engine.fcboLoop st human targetElo bots (-1, 999999, -1, 999999)).2.2.1
       else (Engine.fcboLoop st human targetElo bots (-1, 999999, -1, 999999)).1) := by
    unfold Engine.findClosestBotOpponent
    rw [hbots]
    dsimp only
    by_cases hb0 : bots.length = 0
    · rw [if_pos hb0]
      rw [List.length_eq_zero] at hb0
      subst hb0
      rfl
    · rw [if_neg hb0, hhuman]
  set r := Engine.fcboLoop st human targetElo bots (-1, 999999, -1, 999999) with hrdef
  have hno_neg1 : ∀ x : Int, x ∈ bots → ¬x = -1 := hsent
  refine ⟨?_, ?_, ?_, ?_, ?_⟩
  · constructor
    · intro hres
      rw [hres_eq] at hres
      by_cases h1 : r.1 = -1
      · rw [if_pos h1] at hres
        rcases hfbI with ⟨-, -, hall⟩ | ⟨hmem, -, -, -, -⟩
        · exact hall
        · exact absurd hres (hno_neg1 _ hmem)
      · rw [if_neg h1] at hres
        exact absurd hres h1
    · intro hall
      rw [hres_eq]
      have h1 : r.1 = -1 := by
        rcases hbbI with ⟨h1, -, -⟩ | ⟨hmem, hav, -, -, -, -⟩
        · exact h1
        · rw [hall _ hmem] at hav; exact absurd hav (by simp)
      rw [if_pos h1]
      rcases hfbI with ⟨h2, -, -⟩ | ⟨hmem, hav, -, -, -⟩
      · exact h2
      · rw [hall _ hmem] at hav; exact absurd hav (by simp)
  · intro hres
    rw [hres_eq] at hres ⊢
    by_cases h1 : r.1 = -1
    · rw [if_pos h1] at hres ⊢
      rcases hfbI with ⟨h2, -, -⟩ | ⟨hmem, hav, -, -, -⟩
      · exact absurd h2 hres
      · exact ⟨hmem, hav⟩
    · rw [if_neg h1] at hres ⊢
      rcases hbbI with ⟨h2, -, -⟩ | ⟨hmem, hav, -, -, -, -⟩
      · exact absurd h2 h1
      · exact ⟨hmem, hav⟩
  · rintro ⟨b0, hb0, hav0, hrec0⟩
    rcases hbbI with ⟨-, -, hall⟩ | ⟨hmem, hav, hrec, hdiff, -, hmin⟩
    · rw [hall b0 hb0 hav0] at hrec0
      exact absurd hrec0 (by simp)
    · have h1 : ¬r.1 = -1 := hno_neg1 _ hmem
      rw [hres_eq, if_neg h1]
      exact ⟨hrec, fun b hb hav2 hrec2 => hdiff ▸ hmin b hb hav2 hrec2⟩
  · rintro ⟨b0, hb0, hav0⟩ hallrec
    rcases hbbI with ⟨h1, -, -⟩ | ⟨hmem, hav, hrec, -, -, -⟩
    · rw [hres_eq, if_pos h1]
      rcases hfbI with ⟨-, -, hall⟩ | ⟨-, -, hdiff, -, hmin⟩
      · rw [hall b0 hb0] at hav0
        exact absurd hav0 (by simp)
      · exact fun b hb hav2 => hdiff ▸ hmin b hb hav2
    · rw [hallrec _ hmem hav] at hrec
      exact absurd hrec (by simp)
  · intro e rest hq hpid hnotbot htel hres
    have hstg : HTable.get (Engine.setQueue st g rest).playerStorage e.playerId = some human := by
      rw [Engine.setQueue_playerStorage, hpid]
      exact hhuman
    have hst1 : (Engine.removePlayerFromRanking (Engine.setQueue st g rest)
        e.playerId human.elo g).playerStorage = st.playerStorage := by
      simp
    have hbots1 : Engine.getBotsOpt (Engine.removePlayerFromRanking (Engine.setQueue st g rest)
        e.playerId human.elo g) g = Engine.getBotsOpt st g := by
      rw [Engine.getBotsOpt_removePlayerFromRanking, Engine.getBotsOpt_setQueue]
    have hfcbo1 : Engine.findClosestBotOpponent
        (Engine.removePlayerFromRanking (Engine.setQueue st g rest) e.playerId human.elo g)
        e.playerId human.elo g = -1 := by
      rw [Engine.findClosestBotOpponent_congr _ st g hst1 hbots1]
      rw [hpid, ← htel]
      exact hres
    refine ⟨Engine.setQueue (Engine.addPlayerToRanking
      (Engine.removePlayerFromRanking (Engine.setQueue st g rest) e.playerId human.elo g)
      e.playerId g) g (rest ++ [e]), ?_, ?_⟩
    · unfold Engine.matchHumanWithBot
      rw [hq]
      dsimp only
      rw [hstg]
      dsimp only
      rw [if_neg (by rw [hnotbot]; exact Bool.false_ne_true)]
      rw [hfcbo1, if_pos rfl]
    · apply Engine.getQueueOpt_setQueue_self
      rw [Engine.getQueueOpt_addPlayerToRanking, Engine.getQueueOpt_removePlayerFromRanking]
      exact Engine.getQueueOpt_setQueue_self st g rest _ hq

/-- The state for the C7 witness: one human (rating 1000) and one
registered idle bot at rating 1100. -/
def c7ok : Engine :=
  Engine.registerBot
    (Engine.init (mkDirectory [mkHuman 1 "h" 1000, mkBot 5 "b" 1100]) 0) 5 "pingpong"

/-- Witness for the amended C7 at a concrete input. -/
theorem claim_C7_amended_witness :
    (Engine.getBotsOpt c7ok "pingpong" = some [5]) ∧
    (HTable.get c7ok.playerStorage 1 = some (mkHuman 1 "h" 1000)) ∧
    (∀ b ∈ [(5 : Int)], b ≠ -1) ∧
    (∀ b ∈ [(5 : Int)], Engine.botAvail c7ok b = true →
      Engine.botDiff c7ok 1000 b < 999999) ∧
    ((Engine.findClosestBotOpponent c7ok 1 1000 "pingpong" = -1 ↔
        ∀ b ∈ [(5 : Int)], Engine.botAvail c7ok b = false) ∧
      (Engine.findClosestBotOpponent c7ok 1 1000 "pingpong" ≠ -1 →
        Engine.findClosestBotOpponent c7ok 1 1000 "pingpong" ∈ [(5 : Int)] ∧
        Engine.botAvail c7ok (Engine.findClosestBotOpponent c7ok 1 1000 "pingpong") = true) ∧
      ((∃ b ∈ [(5 : Int)], Engine.botAvail c7ok b = true ∧
          (mkHuman 1 "h" 1000).wasRecentOpponent b = false) →
        (mkHuman 1 "h" 1000).wasRecentOpponent
            (Engine.findClosestBotOpponent c7ok 1 1000 "pingpong") = false ∧
        ∀ b ∈ [(5 : Int)], Engine.botAvail c7ok b = true →
          (mkHuman 1 "h" 1000).wasRecentOpponent b = false →
          Engine.botDiff c7ok 1000 (Engine.findClosestBotOpponent c7ok 1 1000 "pingpong")
            ≤ Engine.botDiff c7ok 1000 b) ∧
      ((∃ b ∈ [(5 : Int)], Engine.botAvail c7ok b = true) →
        (∀ b ∈ [(5 : Int)], Engine.botAvail c7ok b = true →
          (mkHuman 1 "h" 1000).wasRecentOpponent b = true) →
        ∀ b ∈ [(5 : Int)], Engine.botAvail c7ok b = true →
          Engine.botDiff c7ok 1000 (Engine.findClosestBotOpponent c7ok 1 1000 "pingpong")
            ≤ Engine.botDiff c7ok 1000 b) ∧
      (∀ (e : QueueEntry) (rest : List QueueEntry),
        Engine.getQueueOpt c7ok "pingpong" = some (e :: rest) → e.playerId = 1 →
        (mkHuman 1 "h" 1000).isBot = false → (1000 : Int) = (mkHuman 1 "h" 1000).elo →
        Engine.findClosestBotOpponent c7ok 1 1000 "pingpong" = -1 →
        ∃ st2, Engine.matchHumanWithBot c7ok "pingpong" = (-1, st2) ∧
          Engine.getQueueOpt st2 "pingpong" = some (rest ++ [e]))) :=
  ⟨by decide, by decide, by decide, by decide,
   claim_C7_amended_bot_selection c7ok "pingpong" [5] 1 1000 (mkHuman 1 "h" 1000)
     (by decide) (by decide) (by decide) (by decide)⟩

namespace AvlTree

/-- Every stored height field equals 1 plus the maximum of the children's
heights (0 for a null child). -/
def heightsOk : AvlTree → Bool
  | nil => true
  | node _ l r h => heightsOk l && heightsOk r && (h = 1 + max (getHeight l) (getHeight r))

/-- Every node's two subtree heights differ by at most 1. -/
def balancedOk : AvlTree → Bool
  | nil => true
  | node _ l r _ => balancedOk l && balancedOk r &&
      (getHeight l - getHeight r ≤ 1) && (getHeight r - getHeight l ≤ 1)

/-- The AVL shape invariant: correct stored heights and height balance. -/
def avlOk (t : AvlTree) : Bool := heightsOk t && balancedOk t

theorem getHeight_nonneg : ∀ (t : AvlTree), heightsOk t = true → 0 ≤ getHeight t
  | nil, _ => le_refl 0
  | node d l r h, hok => by
      simp only [heightsOk, Bool.and_eq_true, decide_eq_true_eq] at hok
      obtain ⟨⟨hl, hr⟩, hh⟩ := hok
      have := getHeight_nonneg l hl
      have := getHeight_nonneg r hr
      show 0 ≤ h
      omega

theorem getHeight_pos (t : AvlTree) (hok : heightsOk t = true) (hne : t ≠ nil) :
    1 ≤ getHeight t := by
  cases t with
  | nil => exact absurd rfl hne
  | node d l r h =>
      simp only [heightsOk, Bool.and_eq_true, decide_eq_true_eq] at hok
      obtain ⟨⟨hl, hr⟩, hh⟩ := hok
      have := getHeight_nonneg l hl
      have := getHeight_nonneg r hr
      show 1 ≤ h
      omega

theorem nil_of_height_zero (t : AvlTree) (hok : heightsOk t = true)
    (h0 : getHeight t ≤ 0) : t = nil := by
  by_contra hne
  have := getHeight_pos t hok hne
  omega

/-- On a node whose stored height is already correct and whose balance
factor is within ±1, `balance` is the identity (it rewrites the height
with the same value and takes no rotation). -/
theorem balance_of_ok (d : PlayerELO) (l r : AvlTree) (h : Int)
    (hh : h = 1 + max (getHeight l) (getHeight r))
    (hb1 : getHeight l - getHeight r ≤ 1) (hb2 : getHeight r - getHeight l ≤ 1) :
    balance (node d l r h) = node d l r h := by
  rw [balance]
  rw [if_neg (by omega), if_neg (by omega), hh]

end AvlTree

theorem listGetD_lt {α : Type _} :
    ∀ (bs : List α) (i : Nat) (d : α) (h : i < bs.length), bs.getD i d = bs.get ⟨i, h⟩
  | [], i, d, h => absurd h (by simp)
  | _ :: _, 0, _, _ => rfl
  | _ :: bs, i + 1, d, h => listGetD_lt bs i d (by simp only [List.length_cons] at h; omega)

theorem listMem_set_cases {α : Type _} :
    ∀ (bs : List α) (i : Nat) (x : α), ∀ y ∈ bs.set i x, y = x ∨ y ∈ bs
  | [], _, _, y, hy => Or.inr hy
  | b :: bs, 0, x, y, hy => by
      rcases List.mem_cons.1 hy with hy | hy
      · exact Or.inl hy
      · exact Or.inr (List.mem_cons_of_mem _ hy)
  | b :: bs, i + 1, x, y, hy => by
      rcases List.mem_cons.1 hy with hy | hy
      · exact Or.inr (hy ▸ List.mem_cons_self _ _)
      · rcases listMem_set_cases bs i x y hy with hy | hy
        · exact Or.inl hy
        · exact Or.inr (List.mem_cons_of_mem _ hy)

namespace HTable

variable {V : Type}

theorem bucketFind_eq_none_iff (b : List (KVPair V)) (k : Int) :
    bucketFind b k = none ↔ ∀ p ∈ b, ¬p.key = k := by
  induction b with
  | nil => simp [bucketFind]
  | cons p ps ih =>
      by_cases hk : p.key = k
      · rw [bucketFind, if_pos hk]
        simp only [List.mem_cons]
        constructor
        · intro hcon; exact absurd hcon (by simp)
        · intro hall; exact absurd hk (hall p (Or.inl rfl))
      · rw [bucketFind, if_neg hk]
        rw [ih]
        constructor
        · intro hall q hq
          rcases List.mem_cons.1 hq with hq | hq
          · rw [hq]; exact hk
          · exact hall q hq
        · intro hall q hq
          exact hall q (List.mem_cons_of_mem _ hq)

theorem bucketFind_append_some (b : List (KVPair V)) (k : Int) (v : V)
    (h : bucketFind b k = none) : bucketFind (b ++ [⟨k, v⟩]) k = some v := by
  induction b with
  | nil => simp [bucketFind]
  | cons p ps ih =>
      by_cases hk : p.key = k
      · rw [bucketFind, if_pos hk] at h
        exact absurd h (by simp)
      · rw [bucketFind, if_neg hk] at h
        rw [List.cons_append, bucketFind, if_neg hk]
        exact ih h

theorem bucketFind_ne_none_of_mem (b : List (KVPair V)) (p : KVPair V) (k : Int)
    (hp : p ∈ b) (hk : p.key = k) : bucketFind b k ≠ none := by
  induction b with
  | nil => exact absurd hp (by simp)
  | cons q qs ih =>
      by_cases hq : q.key = k
      · rw [bucketFind, if_pos hq]
        simp
      · rw [bucketFind, if_neg hq]
        rcases List.mem_cons.1 hp with hp | hp
        · rw [← hp] at hq; exact absurd hk hq
        · exact ih hp

theorem mem_bucketOverwrite (b : List (KVPair V)) (k : Int) (v : V) :
    ∀ q ∈ bucketOverwrite b k v, q ∈ b ∨ q.key = k := by
  induction b with
  | nil => intro q hq; exact absurd hq (by simp [bucketOverwrite])
  | cons p ps ih =>
      intro q hq
      by_cases hk : p.key = k
      · rw [bucketOverwrite, if_pos hk] at hq
        rcases List.mem_cons.1 hq with hq | hq
        · exact Or.inr (by rw [hq]; exact hk)
        · exact Or.inl (List.mem_cons_of_mem _ hq)
      · rw [bucketOverwrite, if_neg hk] at hq
        rcases List.mem_cons.1 hq with hq | hq
        · exact Or.inl (hq ▸ List.mem_cons_self _ _)
        · rcases ih q hq with hq | hq
          · exact Or.inl (List.mem_cons_of_mem _ hq)
          · exact Or.inr hq

theorem mem_pairs_getD (t : HTable V) (i : Nat) (p : KVPair V)
    (hp : p ∈ t.buckets.getD i []) : p ∈ pairs t := by
  by_cases hlt : i < t.buckets.length
  · rw [listGetD_lt t.buckets i [] hlt] at hp
    exact List.mem_flatten.2 ⟨_, List.get_mem _ _ _, hp⟩
  · rw [listGetD_of_ge t.buckets i [] (by omega)] at hp
    exact absurd hp (by simp)

theorem insertStep_eq_append (t : HTable V) (k : Int) (v : V)
    (hf : bucketFind (t.buckets.getD (hashIdx t k) []) k = none) :
    insertStep t k v = setBucket t (hashIdx t k) ((t.buckets.getD (hashIdx t k) []) ++ [⟨k, v⟩]) := by
  simp only [insertStep, hf]

theorem insertStep_eq_overwrite (t : HTable V) (k : Int) (v : V) (w : V)
    (hf : bucketFind (t.buckets.getD (hashIdx t k) []) k = some w) :
    insertStep t k v = setBucket t (hashIdx t k)
      (bucketOverwrite (t.buckets.getD (hashIdx t k) []) k v) := by
  simp only [insertStep, hf]

theorem mem_pairs_insertStep (t : HTable V) (k : Int) (v : V) :
    ∀ p ∈ pairs (insertStep t k v), p ∈ pairs t ∨ p.key = k := by
  intro p hp
  rcases hf : bucketFind (t.buckets.getD (hashIdx t k) []) k with _ | w
  · rw [insertStep_eq_append t k v hf] at hp
    obtain ⟨l, hl, hpl⟩ := List.mem_flatten.1 hp
    rcases listMem_set_cases t.buckets (hashIdx t k) _ l hl with hl2 | hl2
    · rw [hl2] at hpl
      rcases List.mem_append.1 hpl with hpl | hpl
      · exact Or.inl (mem_pairs_getD t (hashIdx t k) p hpl)
      · simp only [List.mem_singleton] at hpl
        exact Or.inr (by rw [hpl])
    · exact Or.inl (List.mem_flatten.2 ⟨l, hl2, hpl⟩)
  · rw [insertStep_eq_overwrite t k v w hf] at hp
    obtain ⟨l, hl, hpl⟩ := List.mem_flatten.1 hp
    rcases listMem_set_cases t.buckets (hashIdx t k) _ l hl with hl2 | hl2
    · rw [hl2] at hpl
      rcases mem_bucketOverwrite _ k v p hpl with hq | hq
      · exact Or.inl (mem_pairs_getD t (hashIdx t k) p hq)
      · exact Or.inr hq
    · exact Or.inl (List.mem_flatten.2 ⟨l, hl2, hpl⟩)

theorem pairs_empty (n : Nat) : pairs (empty V n) = [] := by
  unfold pairs empty
  induction n with
  | zero => rfl
  | succ m ih => simp [List.replicate_succ, ih]

theorem rehash_no_key (t : HTable V) (k : Int)
    (hall : ∀ p ∈ pairs t, ¬p.key = k) : ∀ p ∈ pairs (rehash t), ¬p.key = k := by
  unfold rehash
  have hgen : ∀ (ps : List (KVPair V)) (acc : HTable V),
      (∀ p ∈ pairs acc, ¬p.key = k) → (∀ p ∈ ps, ¬p.key = k) →
      ∀ p ∈ pairs (ps.foldl (fun a q => insertStep a q.key q.value) acc), ¬p.key = k := by
    intro ps
    induction ps with
    | nil => intro acc hacc _; exact hacc
    | cons q qs ih =>
        intro acc hacc hqs
        rw [List.foldl_cons]
        apply ih
        · intro p hp
          rcases mem_pairs_insertStep acc q.key q.value p hp with hp2 | hp2
          · exact hacc p hp2
          · rw [hp2]; exact hqs q (List.mem_cons_self _ _)
        · intro p hp; exact hqs p (List.mem_cons_of_mem _ hp)
  apply hgen
  · rw [pairs_empty]; intro p hp; exact absurd hp (by simp)
  · exact hall

theorem wf_no_key (t : HTable V) (k : Int) (hwf : wf t) (hg : get t k = none) :
    ∀ p ∈ pairs t, ¬p.key = k := by
  intro p hp hpk
  obtain ⟨l, hl, hpl⟩ := List.mem_flatten.1 hp
  obtain ⟨⟨i, hi⟩, hget⟩ := List.mem_iff_get.1 hl
  have hidx : hashIdx t p.key = i := hwf i hi p (by rw [hget]; exact hpl)
  have hg2 : bucketFind (t.buckets.getD (hashIdx t k) []) k = none := hg
  rw [hpk] at hidx
  rw [hidx, listGetD_lt t.buckets i [] hi, hget] at hg2
  exact bucketFind_ne_none_of_mem l p k hpl hpk hg2

theorem tableSize_insertStep (t : HTable V) (k : Int) (v : V) :
    tableSize (insertStep t k v) = tableSize t := by
  rcases hf : bucketFind (t.buckets.getD (hashIdx t k) []) k with _ | w
  · rw [insertStep_eq_append t k v hf, tableSize_setBucket]
  · rw [insertStep_eq_overwrite t k v w hf, tableSize_setBucket]

theorem tableSize_rehash (t : HTable V) :
    tableSize (rehash t) = 2 * tableSize t + 1 := by
  unfold rehash
  have hgen : ∀ (ps : List (KVPair V)) (acc : HTable V),
      tableSize (ps.foldl (fun a q => insertStep a q.key q.value) acc) = tableSize acc := by
    intro ps
    induction ps with
    | nil => intro acc; rfl
    | cons q qs ih =>
        intro acc
        rw [List.foldl_cons, ih, tableSize_insertStep]
  rw [hgen]
  unfold tableSize empty
  simp

end HTable

namespace HTable

variable {V : Type}

theorem insert_eq_overwrite (t : HTable V) (k : Int) (v w : V)
    (hf : bucketFind (t.buckets.getD (hashIdx t k) []) k = some w) :
    insert t k v = setBucket t (hashIdx t k)
      (bucketOverwrite (t.buckets.getD (hashIdx t k) []) k v) := by
  simp only [insert, hf]

theorem insert_eq_update_of_found (t : HTable V) (k : Int) (v w : V)
    (hf : bucketFind (t.buckets.getD (hashIdx t k) []) k = some w) :
    insert t k v = (update t k v).2 := by
  simp only [insert, update, hf]

theorem insert_eq_no_rehash (t : HTable V) (k : Int) (v : V)
    (hf : bucketFind (t.buckets.getD (hashIdx t k) []) k = none)
    (hld : ¬ 4 * (count t + 1) > 3 * tableSize t) :
    insert t k v = setBucket t (hashIdx t k)
      (t.buckets.getD (hashIdx t k) [] ++ [⟨k, v⟩]) := by
  simp only [insert, hf, if_neg hld]

theorem insert_eq_rehash (t : HTable V) (k : Int) (v : V)
    (hf : bucketFind (t.buckets.getD (hashIdx t k) []) k = none)
    (hld : 4 * (count t + 1) > 3 * tableSize t) :
    insert t k v = setBucket (rehash t) (hashIdx (rehash t) k)
      ((rehash t).buckets.getD (hashIdx (rehash t) k) [] ++ [⟨k, v⟩]) := by
  simp only [insert, hf, if_pos hld]

theorem get_setBucket_append (t1 : HTable V) (k : Int) (v : V)
    (hpos : 0 < tableSize t1)
    (hf : bucketFind (t1.buckets.getD (hashIdx t1 k) []) k = none) :
    get (setBucket t1 (hashIdx t1 k)
      (t1.buckets.getD (hashIdx t1 k) [] ++ [⟨k, v⟩])) k = some v := by
  have hlt : hashIdx t1 k < t1.buckets.length := Nat.mod_lt _ hpos
  show bucketFind (((setBucket t1 (hashIdx t1 k)
      (t1.buckets.getD (hashIdx t1 k) [] ++ [⟨k, v⟩])).buckets).getD
    (hashIdx (setBucket t1 (hashIdx t1 k)
      (t1.buckets.getD (hashIdx t1 k) [] ++ [⟨k, v⟩])) k) []) k = some v
  rw [hashIdx_setBucket]
  show bucketFind ((t1.buckets.set (hashIdx t1 k)
      (t1.buckets.getD (hashIdx t1 k) [] ++ [⟨k, v⟩])).getD (hashIdx t1 k) []) k = some v
  rw [listGetD_set_self t1.buckets (hashIdx t1 k) _ [] hlt]
  exact bucketFind_append_some _ k v hf

theorem insert_get_self (t : HTable V) (k : Int) (v : V) (hwf : wf t) :
    get (insert t k v) k = some v := by
  rcases hf : bucketFind (t.buckets.getD (hashIdx t k) []) k with _ | w
  · by_cases hld : 4 * (count t + 1) > 3 * tableSize t
    · rw [insert_eq_rehash t k v hf hld]
      have hg : get t k = none := hf
      have hnk := rehash_no_key t k (wf_no_key t k hwf hg)
      have hpos : 0 < tableSize (rehash t) := by rw [tableSize_rehash]; omega
      apply get_setBucket_append (rehash t) k v hpos
      rw [bucketFind_eq_none_iff]
      intro p hp
      exact hnk p (mem_pairs_getD (rehash t) _ p hp)
    · rw [insert_eq_no_rehash t k v hf hld]
      have hpos : 0 < tableSize t := by omega
      exact get_setBucket_append t k v hpos hf
  · rw [insert_eq_update_of_found t k v w hf]
    exact update_get_self t k v w hf

theorem bucketOverwrite_length (b : List (KVPair V)) (k : Int) (v : V) :
    (bucketOverwrite b k v).length = b.length := by
  induction b with
  | nil => rfl
  | cons p ps ih =>
      by_cases hk : p.key = k
      · rw [bucketOverwrite, if_pos hk]
        simp
      · rw [bucketOverwrite, if_neg hk]
        simp [ih]

end HTable

theorem listSum_set_samelen {α : Type _} :
    ∀ (bs : List (List α)) (i : Nat) (b2 : List α),
      (bs.getD i []).length = b2.length →
      ((bs.set i b2).map List.length).sum = (bs.map List.length).sum
  | [], _, _, _ => rfl
  | hd :: tl, 0, b2, h => by
      simp only [List.set, List.map, List.sum_cons]
      have h2 : hd.length = b2.length := h
      omega
  | hd :: tl, i + 1, b2, h => by
      simp only [List.set, List.map, List.sum_cons]
      rw [listSum_set_samelen tl i b2 h]

namespace HTable

variable {V : Type}

theorem count_insert_of_found (t : HTable V) (k : Int) (v w : V)
    (hf : bucketFind (t.buckets.getD (hashIdx t k) []) k = some w) :
    count (insert t k v) = count t := by
  rw [insert_eq_overwrite t k v w hf]
  show ((t.buckets.set (hashIdx t k)
      (bucketOverwrite (t.buckets.getD (hashIdx t k) []) k v)).map List.length).sum
    = (t.buckets.map List.length).sum
  exact listSum_set_samelen t.buckets _ _ (bucketOverwrite_length _ k v).symm

end HTable

namespace AvlTree

theorem insertNode_mem_noop : ∀ (t : AvlTree) (v : PlayerELO),
    avlOk t = true → searchNode t v ≠ none → insertNode t v = t
  | nil, v, _, hs => absurd rfl hs
  | node d l r h, v, hok, hs => by
      simp only [avlOk, heightsOk, balancedOk, Bool.and_eq_true, decide_eq_true_eq] at hok
      obtain ⟨⟨⟨hhl, hhr⟩, hh⟩, ⟨⟨hbl, hbr⟩, hb1⟩, hb2⟩ := hok
      by_cases hvd : pltLt v d = true
      · rw [searchNode, if_pos hvd] at hs
        rw [insertNode, if_pos hvd,
          insertNode_mem_noop l v (by simp [avlOk, hhl, hbl]) hs]
        exact balance_of_ok d l r h hh hb1 hb2
      · by_cases hdv : pltLt d v = true
        · rw [searchNode, if_neg hvd, if_pos hdv] at hs
          rw [insertNode, if_neg hvd, if_pos hdv,
            insertNode_mem_noop r v (by simp [avlOk, hhr, hbr]) hs]
          exact balance_of_ok d l r h hh hb1 hb2
        · rw [insertNode, if_neg hvd, if_neg hdv]

end AvlTree

/-- Two fixture players and a one-bucket directory for exercising the
hash-table lemmas on concrete input. -/
def c9p1 : Player := mkHuman 3 "Ada" 1200

def c9p2 : Player := mkHuman 3 "Ada" 1350

def c9t : HTable Player := ⟨[[⟨3, c9p1⟩]]⟩

def c9tree : AvlTree := AvlTree.node ⟨5, 100⟩ AvlTree.nil AvlTree.nil 1

/-- C9: for the Player Directory hash table, `get k` right after
`insert k v` returns `v` (on well-formed tables, which the load-factor
rehash preserves keys of); when `k` is already present, `insert` takes
the exact in-place overwrite path of `update`, leaving the element
count, the table size, and every other key's lookup unchanged
(last-write-wins).  By contrast, inserting an already-present key into
the Ranking Index AVL tree leaves the tree entirely unchanged. -/
theorem claim_C9_insert_get_and_overwrite :
    (∀ (t : HTable Player) (k : Int) (v : Player), HTable.wf t →
        HTable.get (HTable.insert t k v) k = some v) ∧
    (∀ (t : HTable Player) (k : Int) (v w : Player), HTable.get t k = some w →
        HTable.insert t k v = (HTable.update t k v).2 ∧
        HTable.count (HTable.insert t k v) = HTable.count t ∧
        HTable.tableSize (HTable.insert t k v) = HTable.tableSize t ∧
        ∀ k2, k ≠ k2 → HTable.get (HTable.insert t k v) k2 = HTable.get t k2) ∧
    (∀ (tr : AvlTree) (e : PlayerELO), AvlTree.avlOk tr = true →
        AvlTree.searchNode tr e ≠ none → AvlTree.insertNode tr e = tr) := by
  refine ⟨fun t k v hwf => HTable.insert_get_self t k v hwf, fun t k v w hg => ?_,
    fun tr e hok hs => AvlTree.insertNode_mem_noop tr e hok hs⟩
  have hf : HTable.bucketFind (t.buckets.getD (HTable.hashIdx t k) []) k = some w := hg
  refine ⟨HTable.insert_eq_update_of_found t k v w hf,
    HTable.count_insert_of_found t k v w hf, ?_, fun k2 hk2 => ?_⟩
  · rw [HTable.insert_eq_overwrite t k v w hf]
    exact HTable.tableSize_setBucket _ _ _
  · rw [HTable.insert_eq_update_of_found t k v w hf]
    exact HTable.update_get_ne t k2 k v (Ne.symm hk2)

/-- Concrete instantiation of C9: overwriting key 3 in a one-bucket
directory is found by `get`, keeps the count at 1, and re-inserting an
existing rating into a singleton AVL tree returns the same tree. -/
theorem claim_C9_witness :
    HTable.get (HTable.insert c9t 3 c9p2) 3 = some c9p2 ∧
    HTable.count (HTable.insert c9t 3 c9p2) = HTable.count c9t ∧
    AvlTree.insertNode c9tree ⟨5, 100⟩ = c9tree :=
  ⟨claim_C9_insert_get_and_overwrite.1 c9t 3 c9p2 (by
      intro i h p hp
      have h0 : i = 0 := by
        have h1 : i < 1 := h
        omega
      subst h0
      show HTable.hashIdx c9t p.key = 0
      simp [HTable.hashIdx, HTable.tableSize, c9t, Nat.mod_one]),
   (claim_C9_insert_get_and_overwrite.2.1 c9t 3 c9p2 c9p1 (by decide)).2.1,
   claim_C9_insert_get_and_overwrite.2.2 c9tree ⟨5, 100⟩ (by decide) (by decide)⟩

namespace AvlTree

theorem getHeight_nil : getHeight nil = 0 := rfl

theorem getHeight_node (d : PlayerELO) (l r : AvlTree) (h : Int) :
    getHeight (node d l r h) = h := rfl

theorem rotateRight_node (d ld : PlayerELO) (ll lr r : AvlTree) (lh h : Int) :
    rotateRight (node d (node ld ll lr lh) r h) =
      node ld ll (node d lr r (1 + max (getHeight lr) (getHeight r)))
        (1 + max (getHeight ll) (1 + max (getHeight lr) (getHeight r))) := rfl

theorem rotateLeft_node (d rd : PlayerELO) (l rl rr : AvlTree) (rh h : Int) :
    rotateLeft (node d l (node rd rl rr rh) h) =
      node rd (node d l rl (1 + max (getHeight l) (getHeight rl))) rr
        (1 + max (1 + max (getHeight l) (getHeight rl)) (getHeight rr)) := rfl

theorem balance_eq_ll (d : PlayerELO) (l r : AvlTree) (h : Int)
    (hbf : getHeight l - getHeight r > 1) (hbl : ¬ getBalance l < 0) :
    balance (node d l r h) =
      rotateRight (node d l r (1 + max (getHeight l) (getHeight r))) := by
  simp only [balance]
  rw [if_pos hbf, if_neg hbl]

theorem balance_eq_lr (d : PlayerELO) (l r : AvlTree) (h : Int)
    (hbf : getHeight l - getHeight r > 1) (hbl : getBalance l < 0) :
    balance (node d l r h) =
      rotateRight (node d (rotateLeft l) r (1 + max (getHeight l) (getHeight r))) := by
  simp only [balance]
  rw [if_pos hbf, if_pos hbl]

theorem balance_eq_rr (d : PlayerELO) (l r : AvlTree) (h : Int)
    (hbf1 : ¬ getHeight l - getHeight r > 1) (hbf2 : getHeight l - getHeight r < -1)
    (hbr : ¬ getBalance r > 0) :
    balance (node d l r h) =
      rotateLeft (node d l r (1 + max (getHeight l) (getHeight r))) := by
  simp only [balance]
  rw [if_neg hbf1, if_pos hbf2, if_neg hbr]

theorem balance_eq_rl (d : PlayerELO) (l r : AvlTree) (h : Int)
    (hbf1 : ¬ getHeight l - getHeight r > 1) (hbf2 : getHeight l - getHeight r < -1)
    (hbr : getBalance r > 0) :
    balance (node d l r h) =
      rotateLeft (node d l (rotateRight r) (1 + max (getHeight l) (getHeight r))) := by
  simp only [balance]
  rw [if_neg hbf1, if_pos hbf2, if_pos hbr]

theorem balance_eq_bal (d : PlayerELO) (l r : AvlTree) (h : Int)
    (hbf1 : ¬ getHeight l - getHeight r > 1) (hbf2 : ¬ getHeight l - getHeight r < -1) :
    balance (node d l r h) = node d l r (1 + max (getHeight l) (getHeight r)) := by
  simp only [balance]
  rw [if_neg hbf1, if_neg hbf2]

/-- Rebalancing a node whose children are AVL-shaped and whose height
mismatch is at most 2 yields an AVL-shaped tree; the result keeps the
recomputed height `1 + max`, except that a rotation (mismatch exactly 2)
may shrink it by 1. -/
theorem balance_ok (d : PlayerELO) (l r : AvlTree) (h : Int)
    (hOkL : heightsOk l = true) (hOkR : heightsOk r = true)
    (bOkL : balancedOk l = true) (bOkR : balancedOk r = true)
    (hd1 : getHeight l - getHeight r ≤ 2) (hd2 : getHeight r - getHeight l ≤ 2) :
    (heightsOk (balance (node d l r h)) = true ∧
     balancedOk (balance (node d l r h)) = true) ∧
    (getHeight (balance (node d l r h)) = 1 + max (getHeight l) (getHeight r) ∨
     (getHeight (balance (node d l r h)) = max (getHeight l) (getHeight r) ∧
      (getHeight l - getHeight r = 2 ∨ getHeight r - getHeight l = 2))) := by
  have hln := getHeight_nonneg l hOkL
  have hrn := getHeight_nonneg r hOkR
  by_cases hbf1 : getHeight l - getHeight r > 1
  · cases l with
    | nil => simp only [getHeight_nil] at hbf1; omega
    | node ld ll lr lh =>
      simp only [heightsOk, Bool.and_eq_true, decide_eq_true_eq] at hOkL
      obtain ⟨⟨hOkLL, hOkLR⟩, hlh⟩ := hOkL
      simp only [balancedOk, Bool.and_eq_true, decide_eq_true_eq] at bOkL
      obtain ⟨⟨⟨bOkLL, bOkLR⟩, hbl1⟩, hbl2⟩ := bOkL
      have hlln := getHeight_nonneg ll hOkLL
      have hlrn := getHeight_nonneg lr hOkLR
      by_cases hbl : getBalance (node ld ll lr lh) < 0
      · have hbl2' : getHeight ll - getHeight lr < 0 := by
          simpa only [getBalance] using hbl
        cases lr with
        | nil => simp only [getHeight_nil] at hbl2'; omega
        | node lrd lrl lrr lrh =>
          simp only [heightsOk, Bool.and_eq_true, decide_eq_true_eq] at hOkLR
          obtain ⟨⟨hOkLRL, hOkLRR⟩, hlrh⟩ := hOkLR
          simp only [balancedOk, Bool.and_eq_true, decide_eq_true_eq] at bOkLR
          obtain ⟨⟨⟨bOkLRL, bOkLRR⟩, hblr1⟩, hblr2⟩ := bOkLR
          have hlrln := getHeight_nonneg lrl hOkLRL
          have hlrrn := getHeight_nonneg lrr hOkLRR
          rw [balance_eq_lr d (node ld ll (node lrd lrl lrr lrh) lh) r h hbf1 hbl,
            rotateLeft_node, rotateRight_node]
          simp only [getHeight_nil, getHeight_node] at hbf1 hd1 hd2 hbl2' hlh hbl1 hbl2 hlrh hblr1 hblr2 hln ⊢
          constructor
          · constructor
            · simp only [heightsOk, Bool.and_eq_true, decide_eq_true_eq,
                hOkLL, hOkLRL, hOkLRR, hOkR, getHeight_node, true_and, and_true]
            · simp only [balancedOk, Bool.and_eq_true, decide_eq_true_eq,
                bOkLL, bOkLRL, bOkLRR, bOkR, getHeight_node, true_and, and_true]
              omega
          · omega
      · have hbl2' : ¬ getHeight ll - getHeight lr < 0 := by
          simpa only [getBalance] using hbl
        rw [balance_eq_ll d (node ld ll lr lh) r h hbf1 hbl, rotateRight_node]
        simp only [getHeight_nil, getHeight_node] at hbf1 hd1 hd2 hbl2' hlh hbl1 hbl2 hln ⊢
        constructor
        · constructor
          · simp only [heightsOk, Bool.and_eq_true, decide_eq_true_eq,
              hOkLL, hOkLR, hOkR, getHeight_node, true_and, and_true]
          · simp only [balancedOk, Bool.and_eq_true, decide_eq_true_eq,
              bOkLL, bOkLR, bOkR, getHeight_node, true_and, and_true]
            omega
        · omega
  · by_cases hbf2 : getHeight l - getHeight r < -1
    · cases r with
      | nil => simp only [getHeight_nil] at hbf2; omega
      | node rd rl rr rh =>
        simp only [heightsOk, Bool.and_eq_true, decide_eq_true_eq] at hOkR
        obtain ⟨⟨hOkRL, hOkRR⟩, hrh⟩ := hOkR
        simp only [balancedOk, Bool.and_eq_true, decide_eq_true_eq] at bOkR
        obtain ⟨⟨⟨bOkRL, bOkRR⟩, hbr1⟩, hbr2⟩ := bOkR
        have hrln := getHeight_nonneg rl hOkRL
        have hrrn := getHeight_nonneg rr hOkRR
        by_cases hbr : getBalance (node rd rl rr rh) > 0
        · have hbr2' : getHeight rl - getHeight rr > 0 := by
            simpa only [getBalance] using hbr
          cases rl with
          | nil => simp only [getHeight_nil] at hbr2'; omega
          | node rld rll rlr rlh =>
            simp only [heightsOk, Bool.and_eq_true, decide_eq_true_eq] at hOkRL
            obtain ⟨⟨hOkRLL, hOkRLR⟩, hrlh⟩ := hOkRL
            simp only [balancedOk, Bool.and_eq_true, decide_eq_true_eq] at bOkRL
            obtain ⟨⟨⟨bOkRLL, bOkRLR⟩, hbrl1⟩, hbrl2⟩ := bOkRL
            have hrlln := getHeight_nonneg rll hOkRLL
            have hrlrn := getHeight_nonneg rlr hOkRLR
            rw [balance_eq_rl d l (node rd (node rld rll rlr rlh) rr rh) h hbf1 hbf2 hbr,
              rotateRight_node, rotateLeft_node]
            simp only [getHeight_nil, getHeight_node] at hbf1 hbf2 hd1 hd2 hbr2' hrh hbr1 hbr2 hrlh hbrl1 hbrl2 hrn ⊢
            constructor
            · constructor
              · simp only [heightsOk, Bool.and_eq_true, decide_eq_true_eq,
                  hOkL, hOkRLL, hOkRLR, hOkRR, getHeight_node, true_and, and_true]
              · simp only [balancedOk, Bool.and_eq_true, decide_eq_true_eq,
                  bOkL, bOkRLL, bOkRLR, bOkRR, getHeight_node, true_and, and_true]
                omega
            · omega
        · have hbr2' : ¬ getHeight rl - getHeight rr > 0 := by
            simpa only [getBalance] using hbr
          rw [balance_eq_rr d l (node rd rl rr rh) h hbf1 hbf2 hbr, rotateLeft_node]
          simp only [getHeight_nil, getHeight_node] at hbf1 hbf2 hd1 hd2 hbr2' hrh hbr1 hbr2 hrn ⊢
          constructor
          · constructor
            · simp only [heightsOk, Bool.and_eq_true, decide_eq_true_eq,
                hOkL, hOkRL, hOkRR, getHeight_node, true_and, and_true]
            · simp only [balancedOk, Bool.and_eq_true, decide_eq_true_eq,
                bOkL, bOkRL, bOkRR, getHeight_node, true_and, and_true]
              omega
          · omega
    · rw [balance_eq_bal d l r h hbf1 hbf2]
      refine ⟨⟨?_, ?_⟩, Or.inl rfl⟩
      · simp only [heightsOk, Bool.and_eq_true, decide_eq_true_eq, hOkL, hOkR,
          getHeight_node, true_and, and_true]
      · simp only [balancedOk, Bool.and_eq_true, decide_eq_true_eq, bOkL, bOkR,
          getHeight_node, true_and, and_true]
        omega

end AvlTree

namespace AvlTree

/-- Inserting into an AVL-shaped tree keeps it AVL-shaped; the height
grows by at most 1. -/
theorem insertNode_ok : ∀ (t : AvlTree) (v : PlayerELO), avlOk t = true →
    avlOk (insertNode t v) = true ∧
    (getHeight (insertNode t v) = getHeight t ∨
     getHeight (insertNode t v) = getHeight t + 1)
  | nil, v, _ => by
      constructor
      · simp [avlOk, heightsOk, balancedOk, getHeight_nil, getHeight_node]
      · simp [insertNode, getHeight_nil, getHeight_node]
  | node d l r h, v, hok => by
      simp only [avlOk, heightsOk, balancedOk, Bool.and_eq_true, decide_eq_true_eq] at hok
      obtain ⟨⟨⟨hOkL, hOkR⟩, hh⟩, ⟨⟨bOkL, bOkR⟩, hb1⟩, hb2⟩ := hok
      by_cases hvd : pltLt v d = true
      · rw [insertNode, if_pos hvd]
        obtain ⟨hok2, hht2⟩ := insertNode_ok l v (by simp [avlOk, hOkL, bOkL])
        simp only [avlOk, Bool.and_eq_true] at hok2
        obtain ⟨hOkL2, bOkL2⟩ := hok2
        obtain ⟨⟨hsh, hsb⟩, hht⟩ := balance_ok d (insertNode l v) r h hOkL2 hOkR bOkL2 bOkR
          (by omega) (by omega)
        refine ⟨by simp [avlOk, hsh, hsb], ?_⟩
        simp only [getHeight_node]
        omega
      · by_cases hdv : pltLt d v = true
        · rw [insertNode, if_neg hvd, if_pos hdv]
          obtain ⟨hok2, hht2⟩ := insertNode_ok r v (by simp [avlOk, hOkR, bOkR])
          simp only [avlOk, Bool.and_eq_true] at hok2
          obtain ⟨hOkR2, bOkR2⟩ := hok2
          obtain ⟨⟨hsh, hsb⟩, hht⟩ := balance_ok d l (insertNode r v) h hOkL hOkR2 bOkL bOkR2
            (by omega) (by omega)
          refine ⟨by simp [avlOk, hsh, hsb], ?_⟩
          simp only [getHeight_node]
          omega
        · rw [insertNode, if_neg hvd, if_neg hdv]
          refine ⟨?_, Or.inl rfl⟩
          simp only [avlOk, heightsOk, balancedOk, Bool.and_eq_true, decide_eq_true_eq]
          exact ⟨⟨⟨hOkL, hOkR⟩, hh⟩, ⟨⟨bOkL, bOkR⟩, hb1⟩, hb2⟩

/-- Removing from an AVL-shaped tree keeps it AVL-shaped; the height
shrinks by at most 1. -/
theorem removeNode_ok : ∀ (t : AvlTree) (v : PlayerELO), avlOk t = true →
    avlOk (removeNode t v) = true ∧
    (getHeight (removeNode t v) = getHeight t ∨
     getHeight (removeNode t v) = getHeight t - 1)
  | nil, _, _ => ⟨rfl, Or.inl rfl⟩
  | node d l r h, v, hok => by
      simp only [avlOk, heightsOk, balancedOk, Bool.and_eq_true, decide_eq_true_eq] at hok
      obtain ⟨⟨⟨hOkL, hOkR⟩, hh⟩, ⟨⟨bOkL, bOkR⟩, hb1⟩, hb2⟩ := hok
      have hln := getHeight_nonneg l hOkL
      have hrn := getHeight_nonneg r hOkR
      by_cases hvd : pltLt v d = true
      · rw [removeNode, if_pos hvd]
        obtain ⟨hok2, hht2⟩ := removeNode_ok l v (by simp [avlOk, hOkL, bOkL])
        simp only [avlOk, Bool.and_eq_true] at hok2
        obtain ⟨hOkL2, bOkL2⟩ := hok2
        obtain ⟨⟨hsh, hsb⟩, hht⟩ := balance_ok d (removeNode l v) r h hOkL2 hOkR bOkL2 bOkR
          (by omega) (by omega)
        refine ⟨by simp [avlOk, hsh, hsb], ?_⟩
        simp only [getHeight_node]
        omega
      · by_cases hdv : pltLt d v = true
        · rw [removeNode, if_neg hvd, if_pos hdv]
          obtain ⟨hok2, hht2⟩ := removeNode_ok r v (by simp [avlOk, hOkR, bOkR])
          simp only [avlOk, Bool.and_eq_true] at hok2
          obtain ⟨hOkR2, bOkR2⟩ := hok2
          obtain ⟨⟨hsh, hsb⟩, hht⟩ := balance_ok d l (removeNode r v) h hOkL hOkR2 bOkL bOkR2
            (by omega) (by omega)
          refine ⟨by simp [avlOk, hsh, hsb], ?_⟩
          simp only [getHeight_node]
          omega
        · rw [removeNode, if_neg hvd, if_neg hdv]
          by_cases hl0 : l = nil
          · rw [if_pos hl0]
            subst hl0
            simp only [getHeight_nil] at hh
            refine ⟨by simp [avlOk, hOkR, bOkR], ?_⟩
            simp only [getHeight_node]
            omega
          · rw [if_neg hl0]
            by_cases hr0 : r = nil
            · rw [if_pos hr0]
              subst hr0
              simp only [getHeight_nil] at hh
              refine ⟨by simp [avlOk, hOkL, bOkL], ?_⟩
              simp only [getHeight_node]
              omega
            · rw [if_neg hr0]
              show avlOk (balance (node (findMinData r) l (removeNode r (findMinData r)) h))
                  = true ∧
                (getHeight (balance
                    (node (findMinData r) l (removeNode r (findMinData r)) h))
                  = getHeight (node d l r h) ∨
                 getHeight (balance
                    (node (findMinData r) l (removeNode r (findMinData r)) h))
                  = getHeight (node d l r h) - 1)
              obtain ⟨hok2, hht2⟩ := removeNode_ok r (findMinData r)
                (by simp [avlOk, hOkR, bOkR])
              simp only [avlOk, Bool.and_eq_true] at hok2
              obtain ⟨hOkR2, bOkR2⟩ := hok2
              obtain ⟨⟨hsh, hsb⟩, hht⟩ := balance_ok (findMinData r) l
                (removeNode r (findMinData r)) h hOkL hOkR2 bOkL bOkR2
                (by omega) (by omega)
              refine ⟨by simp [avlOk, hsh, hsb], ?_⟩
              simp only [getHeight_node]
              omega

end AvlTree

/-- A concrete ranking index built by three inserts (the third triggers
a right-right rotation). -/
def c8tree : AvlTree :=
  AvlTree.insertNode
    (AvlTree.insertNode (AvlTree.insertNode AvlTree.nil ⟨1000, 1⟩) ⟨1100, 2⟩) ⟨1200, 3⟩

/-- C8: the Ranking Index tree is height-balanced after every mutation:
the empty tree is AVL-shaped, and both `insertNode` and `removeNode`
preserve the shape invariant `avlOk` — every node's stored height equals
1 plus the maximum of its children's heights, and the two subtree
heights differ by at most 1 — so every tree reachable by inserts and
removes satisfies it. -/
theorem claim_C8_avl_balance_preserved :
    AvlTree.avlOk AvlTree.nil = true ∧
    ∀ (t : AvlTree) (v : PlayerELO), AvlTree.avlOk t = true →
      AvlTree.avlOk (AvlTree.insertNode t v) = true ∧
      AvlTree.avlOk (AvlTree.removeNode t v) = true :=
  ⟨rfl, fun t v h =>
    ⟨(AvlTree.insertNode_ok t v h).1, (AvlTree.removeNode_ok t v h).1⟩⟩

/-- Concrete instantiation of C8: a three-node index stays AVL-shaped
under a fourth insert and under a removal. -/
theorem claim_C8_witness :
    AvlTree.avlOk c8tree = true ∧
    AvlTree.avlOk (AvlTree.insertNode c8tree ⟨1150, 4⟩) = true ∧
    AvlTree.avlOk (AvlTree.removeNode c8tree ⟨1100, 2⟩) = true :=
  ⟨by decide,
   (claim_C8_avl_balance_preserved.2 c8tree ⟨1150, 4⟩ (by decide)).1,
   (claim_C8_avl_balance_preserved.2 c8tree ⟨1100, 2⟩ (by decide)).2⟩
